import Mathlib

/-!
Verification of the append-only archive merge engine of the LCF civic-summaries
repository (`src/utils/append_to_archive.py`, class `ArchiveAppender`).

The Python dictionaries are embedded shallowly: a document record is a structure
of optional fields (a `none` field models an absent JSON key), a government-body
bucket is a pair of document lists, and the archive is an insertion-ordered
association list from body names to buckets, mirroring a Python `dict`.
The ambient clock (`datetime.now()`) is passed explicitly as a `Now` value.
-/

set_option autoImplicit false

namespace LCF

/-- One agenda or minutes record.  Each field models the JSON key of the same
name; `none` models a missing key.  `ai_generated` and `historical` are read
through truthiness checks with a `False` default in the source, so they are
modelled as plain booleans. -/
structure Doc where
  title : Option String := none
  date : Option String := none
  url : Option String := none
  type : Option String := none
  summary : Option String := none
  ai_generated : Bool := false
  month : Option String := none
  year : Option Nat := none
  historical : Bool := false
  archived_date : Option String := none
deriving Repr, DecidableEq

/-- The values the source reads off `datetime.now()`: its `isoformat()` string,
its `strftime("%B %Y")` rendering, and its `year`.  The source calls
`datetime.now()` afresh at each use; the calls happen within one merge step, so
they are modelled as one clock value. -/
structure Now where
  isoString : String
  monthYear : String
  year : Nat
deriving Repr, DecidableEq

/-- A government body's bucket: the `agendas` and `minutes` lists. -/
structure Body where
  agendas : List Doc := []
  minutes : List Doc := []
deriving Repr, DecidableEq

/-- The historical archive: an insertion-ordered mapping from body names to
buckets, as a Python `dict` is. -/
abbrev Archive := List (String × Body)

/-- Code-point comparison of characters, as Python compares them. -/
def charLt (c1 c2 : Char) : Bool := c1.toNat < c2.toNat

/-- Lexicographic code-point comparison of character lists. -/
def strLtChars : List Char → List Char → Bool
  | [], [] => false
  | [], _ :: _ => true
  | _ :: _, [] => false
  | c1 :: t1, c2 :: t2 =>
    if charLt c1 c2 then true
    else if charLt c2 c1 then false
    else strLtChars t1 t2

/-- Modelled from the Python built-in `<` on `str`: strict lexicographic
comparison by code point.  Kept structural so concrete instances evaluate. -/
def strLt (s1 s2 : String) : Bool := strLtChars s1.data s2.data

/-- Non-strict counterpart of `strLt`. -/
def strLe (s1 s2 : String) : Bool := !(strLt s2 s1)

/-- Modelled from the Python string method `str.strip()` with no argument, as
`is_duplicate_document` calls it: drop whitespace from both ends. -/
def pyStrip (s : String) : String :=
  ⟨((s.data.dropWhile Char.isWhitespace).reverse.dropWhile Char.isWhitespace).reverse⟩

/-- Modelled from the Python string method `str.lower()` restricted to ASCII,
as `prepare_document_for_archive` calls it on a title slug. -/
def pyLower (s : String) : String :=
  ⟨s.data.map fun ch => if 'A' ≤ ch && ch ≤ 'Z' then Char.ofNat (ch.toNat + 32) else ch⟩

/-- Modelled from the Python call `s.replace(' ', '_')`: with a single-character
pattern, replacement is a character map. -/
def underscoreSpaces (s : String) : String :=
  ⟨s.data.map fun ch => if ch = ' ' then '_' else ch⟩

/-- Modelled from the Python call `s.replace('Z', '+00:00')`: with a
single-character pattern, replacement expands each occurrence in place. -/
def replaceZ (s : String) : String :=
  ⟨s.data.flatMap fun ch => if ch = 'Z' then "+00:00".data else [ch]⟩

/-- Stable ascending insertion by `strLe`. -/
def insertStrAsc (x : String) : List String → List String
  | [] => [x]
  | y :: ys => if strLt x y then x :: y :: ys else y :: insertStrAsc x ys

/-- Modelled from the Python built-in `sorted` on a list of strings: the
stable ascending sort by `<`, as an insertion sort. -/
def sortStrings (l : List String) : List String := l.foldr insertStrAsc []

/-- Modelled from the Python `set.add` as observed through the final sorted
list: keep one copy of each value.  (A Python `set` iterates in unspecified
order; only its membership is observable through `sorted`.) -/
def insertSet (x : String) (l : List String) : List String :=
  if x ∈ l then l else l ++ [x]

/-- Lookup of `historical_archive[body_name]` (first entry with the key). -/
def lookupBody (a : Archive) (name : String) : Option Body :=
  (a.find? (fun p => p.1 == name)).map (fun p => p.2)

/-- In-place replacement of the value stored under `name` (no-op when the key
is absent), modelling mutation of the dictionary entry. -/
def updateBody : Archive → String → Body → Archive
  | [], _, _ => []
  | (n, b0) :: rest, name, b =>
    if n == name then (n, b) :: rest else (n, b0) :: updateBody rest name b

/-- The title-and-date test of `is_duplicate_document`: trimmed titles equal
and dates equal by exact string comparison, absent fields read as `""`. -/
def titleDateMatch (newDoc existingDoc : Doc) : Bool :=
  pyStrip (newDoc.title.getD "") == pyStrip (existingDoc.title.getD "")
    && newDoc.date.getD "" == existingDoc.date.getD ""

/-- The URL test of `is_duplicate_document`: both URLs non-empty and equal. -/
def urlMatch (newDoc existingDoc : Doc) : Bool :=
  newDoc.url.getD "" != "" && existingDoc.url.getD "" != ""
    && newDoc.url.getD "" == existingDoc.url.getD ""

/-- `ArchiveAppender.is_duplicate_document`: scan the existing list and report
a duplicate on the first record passing either test. -/
def isDuplicateDocument (newDoc : Doc) (existingDocs : List Doc) : Bool :=
  existingDocs.any fun e => titleDateMatch newDoc e || urlMatch newDoc e

/-- Gregorian leap-year rule, as `datetime` uses. -/
def isLeapYear (y : Nat) : Bool :=
  (y % 4 == 0 && y % 100 != 0) || (y % 400 == 0)

/-- Day count of a month in a year, as `datetime` validates. -/
def daysInMonth (y m : Nat) : Nat :=
  if m == 2 then (if isLeapYear y then 29 else 28)
  else if m == 4 || m == 6 || m == 9 || m == 11 then 30
  else 31

/-- The year and month of a parsed date - the only components
`prepare_document_for_archive` reads. -/
structure PyDate where
  year : Nat
  month : Nat
deriving Repr, DecidableEq

/-- Reads two decimal digits off a character list. -/
def parse2Digits : List Char → Option (Nat × List Char)
  | a :: b :: rest =>
    if a.isDigit && b.isDigit then
      some ((a.toNat - 48) * 10 + (b.toNat - 48), rest)
    else none
  | _ => none

/-- Validates a trailing UTC-offset suffix `±HH:MM`. -/
def validOffset (cs : List Char) : Bool :=
  match cs with
  | sign :: rest =>
    (sign == '+' || sign == '-')
      && (match parse2Digits rest with
          | some (hh, ':' :: rest2) =>
            hh < 24
              && (match parse2Digits rest2 with
                  | some (mm, rest3) => mm < 60 && rest3.isEmpty
                  | none => false)
          | _ => false)
  | [] => false

/-- An empty remainder or a valid offset suffix. -/
def offsetOrEnd (cs : List Char) : Bool :=
  cs.isEmpty || validOffset cs

/-- Validates the `HH[:MM[:SS[.fff]]][±HH:MM]` time part of an ISO datetime
string. -/
def validTime (cs : List Char) : Bool :=
  match parse2Digits cs with
  | some (hh, rest) =>
    hh < 24
      && (match rest with
          | [] => true
          | ':' :: r2 =>
            (match parse2Digits r2 with
             | some (mm, r3) =>
               mm < 60
                 && (match r3 with
                     | [] => true
                     | ':' :: r4 =>
                       (match parse2Digits r4 with
                        | some (ss, r5) =>
                          ss < 60
                            && (match r5 with
                                | [] => true
                                | '.' :: r6 =>
                                  (r6.takeWhile Char.isDigit) ≠ []
                                    && offsetOrEnd (r6.dropWhile Char.isDigit)
                                | other => validOffset other)
                        | none => false)
                     | other => validOffset other)
             | none => false)
          | other => validOffset other)
  | none => false

/-- Modelled from the Python standard library: `datetime.fromisoformat`, the
call made by `prepare_document_for_archive`, restricted to the
`YYYY-MM-DD[*HH[:MM[:SS[.fff]]][±HH:MM]]` shapes produced by
`datetime.isoformat`.  Returns the year and month, the only components the
archive code reads; any other shape is a parse failure, as it is for the
library routine. -/
def pyFromIsoFormat (s : String) : Option PyDate :=
  match s.data with
  | y1 :: y2 :: y3 :: y4 :: '-' :: m1 :: m2 :: '-' :: d1 :: d2 :: rest =>
    if [y1, y2, y3, y4, m1, m2, d1, d2].all Char.isDigit then
      let y := ((y1.toNat - 48) * 10 + (y2.toNat - 48)) * 100
                 + (y3.toNat - 48) * 10 + (y4.toNat - 48)
      let m := (m1.toNat - 48) * 10 + (m2.toNat - 48)
      let d := (d1.toNat - 48) * 10 + (d2.toNat - 48)
      if 1 ≤ y && 1 ≤ m && m ≤ 12 && 1 ≤ d && d ≤ daysInMonth y m
          && (match rest with
              | [] => true
              | _sep :: t => validTime t) then
        some ⟨y, m⟩
      else none
    else none
  | _ => none

/-- Full English month name, as `strftime("%B")` renders it. -/
def monthName : Nat → String
  | 1 => "January"
  | 2 => "February"
  | 3 => "March"
  | 4 => "April"
  | 5 => "May"
  | 6 => "June"
  | 7 => "July"
  | 8 => "August"
  | 9 => "September"
  | 10 => "October"
  | 11 => "November"
  | 12 => "December"
  | _ => ""

/-- The `strftime("%B %Y")` rendering of a parsed date. -/
def monthYearString (pd : PyDate) : String :=
  monthName pd.month ++ " " ++ toString pd.year

/-- The placeholder URL `prepare_document_for_archive` synthesizes:
`https://lcf.ca.gov/<type>s/<title with spaces as underscores, lowercased>.pdf`,
with the document type defaulting to `"document"`. -/
def slugUrl (d : Doc) : String :=
  "https://lcf.ca.gov/" ++ d.type.getD "document" ++ "s/"
    ++ pyLower (underscoreSpaces (d.title.getD "")) ++ ".pdf"

/-- `ArchiveAppender.prepare_document_for_archive`: copy the record, stamp
`archived_date` and `historical`, derive `month`/`year` when a `date` key is
present (falling back to the clock when it does not parse), and backfill an
empty or missing `url` with the placeholder. -/
def prepareDocumentForArchive (now : Now) (doc : Doc) : Doc :=
  let d0 : Doc := { doc with archived_date := some now.isoString, historical := true }
  let d1 : Doc :=
    match doc.date with
    | none => d0
    | some ds =>
      match pyFromIsoFormat (replaceZ ds) with
      | some pd => { d0 with month := some (monthYearString pd), year := some pd.year }
      | none => { d0 with month := some now.monthYear, year := some now.year }
  if d1.url.getD "" == "" then { d1 with url := some (slugUrl d1) } else d1

/-- The per-collection loop of `append_to_archive`: walk the batch documents in
order, skip duplicates, append the prepared version of each new document to the
(growing, mutated-in-place) existing list, and count the appends. -/
def processDocs (now : Now) : List Doc → List Doc → List Doc × Nat
  | [], existing => (existing, 0)
  | c :: cs, existing =>
    if isDuplicateDocument c existing then processDocs now cs existing
    else
      let r := processDocs now cs (existing ++ [prepareDocumentForArchive now c])
      (r.1, r.2 + 1)

/-- One body's step of `append_to_archive`: process its agendas against the
archived agendas, then its minutes against the archived minutes. -/
def processBody (now : Now) (bd : Body) (ab : Body) : Body × Nat :=
  let ra := processDocs now bd.agendas ab.agendas
  let rm := processDocs now bd.minutes ab.minutes
  (⟨ra.1, rm.1⟩, ra.2 + rm.2)

/-- `ArchiveAppender.append_to_archive`: fold the current batch into the
archive body by body, creating missing body sections, and return the updated
archive, the count of newly added documents, and the set of touched bodies. -/
def appendToArchive (now : Now) : List (String × Body) → Archive → Archive × Nat × Finset String
  | [], archive => (archive, 0, ∅)
  | (name, bd) :: rest, archive =>
    let a1 := if (lookupBody archive name).isSome then archive
              else archive ++ [(name, {})]
    let ab := (lookupBody a1 name).getD {}
    let r := processBody now bd ab
    let a2 := updateBody a1 name r.1
    let r2 := appendToArchive now rest a2
    (r2.1, r.2 + r2.2.1, if r.2 > 0 then insert name r2.2.2 else r2.2.2)

/-- The sort key of `sort_archive_documents`: the raw `date` string, `""` when
absent. -/
def dateKey (d : Doc) : String := d.date.getD ""

/-- Stable descending insertion by `dateKey`. -/
def insertDocDesc (d : Doc) : List Doc → List Doc
  | [] => [d]
  | e :: es => if strLt (dateKey e) (dateKey d) then d :: e :: es else e :: insertDocDesc d es

/-- The per-list sort of `sort_archive_documents`: Python's stable
`list.sort(key=..., reverse=True)`, i.e. the stable descending sort by the
`date` string, modelled as a stable insertion sort. -/
def sortDocsByDateDesc (l : List Doc) : List Doc := l.foldr insertDocDesc []

/-- `ArchiveAppender.sort_archive_documents`: sort every body's agendas and
minutes descending by date string. -/
def sortArchiveDocuments (a : Archive) : Archive :=
  a.map fun p => (p.1, ⟨sortDocsByDateDesc p.2.agendas, sortDocsByDateDesc p.2.minutes⟩)

/-- The mutable counters of `calculate_archive_stats` while it walks the
archive; the month and year collections are Python `set`s. -/
structure StatsAcc where
  total_documents : Nat := 0
  total_agendas : Nat := 0
  total_minutes : Nat := 0
  ai_generated_count : Nat := 0
  months : List String := []
  years : List String := []

/-- The per-document statistics update: count AI-generated records and collect
the `month` and stringified `year` values of documents carrying them. -/
def addDocStats (acc : StatsAcc) (d : Doc) : StatsAcc :=
  { acc with
    ai_generated_count := acc.ai_generated_count + (if d.ai_generated then 1 else 0),
    months := match d.month with
              | some m => insertSet m acc.months
              | none => acc.months,
    years := match d.year with
             | some y => insertSet (toString y) acc.years
             | none => acc.years }

/-- The per-body statistics step: add the agenda and minutes list lengths to
the counters and fold the per-document update over both lists. -/
def addBodyStats (acc : StatsAcc) (b : Body) : StatsAcc :=
  let acc1 := { acc with
                total_agendas := acc.total_agendas + b.agendas.length,
                total_documents := acc.total_documents + b.agendas.length }
  let acc2 := b.agendas.foldl addDocStats acc1
  let acc3 := { acc2 with
                total_minutes := acc2.total_minutes + b.minutes.length,
                total_documents := acc2.total_documents + b.minutes.length }
  b.minutes.foldl addDocStats acc3

/-- The statistics record `calculate_archive_stats` returns. -/
structure ArchiveStats where
  last_updated : String
  total_government_bodies : Nat
  total_documents : Nat
  total_agendas : Nat
  total_minutes : Nat
  ai_generated_count : Nat
  months_covered : List String
  years_covered : List String
  government_bodies : List String
deriving Repr, DecidableEq

/-- `ArchiveAppender.calculate_archive_stats`: walk the archive accumulating
counters, then emit the record with the month and year sets sorted into
lists. -/
def calculateArchiveStats (now : Now) (a : Archive) : ArchiveStats :=
  let acc := a.foldl (fun acc p => addBodyStats acc p.2) {}
  { last_updated := now.isoString
    total_government_bodies := a.length
    total_documents := acc.total_documents
    total_agendas := acc.total_agendas
    total_minutes := acc.total_minutes
    ai_generated_count := acc.ai_generated_count
    months_covered := sortStrings acc.months
    years_covered := sortStrings acc.years
    government_bodies := a.map Prod.fst }

/-- The agendas stored under `name`, `[]` when the body is absent. -/
def archAgendas (a : Archive) (name : String) : List Doc :=
  ((lookupBody a name).getD {}).agendas

/-- The minutes stored under `name`, `[]` when the body is absent. -/
def archMinutes (a : Archive) (name : String) : List Doc :=
  ((lookupBody a name).getD {}).minutes

/-- Total number of documents stored in an archive. -/
def docCount (a : Archive) : Nat :=
  (a.map (fun p => p.2.agendas.length + p.2.minutes.length)).sum

/-- Total number of documents carried by a batch. -/
def batchSize (b : List (String × Body)) : Nat :=
  (b.map (fun p => p.2.agendas.length + p.2.minutes.length)).sum

/-- Suffix test on strings, by character list. -/
def strEndsWith (s suffixStr : String) : Bool :=
  List.isSuffixOf suffixStr.data s.data

/-- The URL a document carries once archived: its own URL when non-empty,
otherwise the synthesized placeholder. -/
def effUrl (d : Doc) : String :=
  if d.url.getD "" = "" then slugUrl d else d.url.getD ""

/-- Two documents agreeing on every field the Dedup Matcher reads. -/
def DocSim (d1 d2 : Doc) : Prop :=
  d1.title = d2.title ∧ d1.date = d2.date ∧ d1.url = d2.url

/-- Bucket-wise `DocSim`. -/
def BodySim (b1 b2 : Body) : Prop :=
  List.Forall₂ DocSim b1.agendas b2.agendas ∧ List.Forall₂ DocSim b1.minutes b2.minutes

/-- Archive-wise `DocSim`: same body names in the same order, buckets similar. -/
def ArchSim (a1 a2 : Archive) : Prop :=
  List.Forall₂ (fun p q => p.1 = q.1 ∧ BodySim p.2 q.2) a1 a2

/-- A candidate that can never match an already-stored record: the title+date
test fails and the URL test cannot fire against the record's stored URL. -/
def FreshAgainst (c e : Doc) : Prop :=
  titleDateMatch c e = false ∧ (c.url.getD "" = "" ∨ c.url.getD "" ≠ e.url.getD "")

/-- A candidate that can never match the archived (prepared) copy of an
earlier batch candidate, whose stored URL is `effUrl` of that candidate. -/
def FreshAgainstNew (c c' : Doc) : Prop :=
  titleDateMatch c c' = false ∧ (c.url.getD "" = "" ∨ c.url.getD "" ≠ effUrl c')

/-- A batch collection none of whose documents can be flagged as a duplicate:
each is fresh against every existing record and against the archived copy of
every earlier document of the same collection. -/
def FreshBatchList (cands existing : List Doc) : Prop :=
  (∀ c ∈ cands, ∀ e ∈ existing, FreshAgainst c e)
    ∧ List.Pairwise (fun a b => FreshAgainstNew b a) cands

/-- All agenda documents a batch submits under `name`, in processing order. -/
def batchAgendas (b : List (String × Body)) (name : String) : List Doc :=
  ((b.filter (fun p => p.1 == name)).map (fun p => p.2.agendas)).flatten

/-- All minutes documents a batch submits under `name`, in processing order. -/
def batchMinutes (b : List (String × Body)) (name : String) : List Doc :=
  ((b.filter (fun p => p.1 == name)).map (fun p => p.2.minutes)).flatten

/-- The clock-independent part of a merge's effect on the archive shape: the
body sections the batch would create, with the stored buckets untouched. -/
def addMissingBodies : List (String × Body) → Archive → Archive
  | [], a => a
  | (name, _) :: rest, a =>
    addMissingBodies rest (if (lookupBody a name).isSome then a else a ++ [(name, {})])

/-- A concrete clock: 2025-03-01, the mocked processing time of the spec's
month-fallback example. -/
def nowMarch2025 : Now := ⟨"2025-03-01T00:00:00", "March 2025", 2025⟩

/-- A second concrete clock, distinct from `nowMarch2025`. -/
def nowSept2025 : Now := ⟨"2025-09-09T09:09:09", "September 2025", 2025⟩

/-- The spec's scenario record: the Planning Commission agenda candidate,
carrying no `type` field. -/
def pcAgendaDoc : Doc :=
  { title := some "PC Agenda", date := some "2025-07-01", url := some "",
    summary := some "S", ai_generated := true }

/-- The scenario record with an explicit `type := "agenda"` field added. -/
def pcAgendaTypedDoc : Doc :=
  { title := some "PC Agenda", date := some "2025-07-01", url := some "",
    type := some "agenda" }

instance (c e : Doc) : Decidable (FreshAgainst c e) := by
  unfold FreshAgainst; infer_instance

instance (c c' : Doc) : Decidable (FreshAgainstNew c c') := by
  unfold FreshAgainstNew; infer_instance

/-- Descending order by the `date` string: the later list entry's key is at
most the earlier one's. -/
def DescOrd (x y : Doc) : Prop := strLe (dateKey y) (dateKey x) = true

theorem prepare_title (now : Now) (d : Doc) :
    (prepareDocumentForArchive now d).title = d.title := by
  rcases hd : d.date with _ | ds
  · simp only [prepareDocumentForArchive, hd]; split <;> rfl
  · rcases hp : pyFromIsoFormat (replaceZ ds) with _ | pd <;>
      (simp only [prepareDocumentForArchive, hd, hp]; split <;> rfl)

theorem prepare_date (now : Now) (d : Doc) :
    (prepareDocumentForArchive now d).date = d.date := by
  rcases hd : d.date with _ | ds
  · simp only [prepareDocumentForArchive, hd]; split <;> rfl
  · rcases hp : pyFromIsoFormat (replaceZ ds) with _ | pd <;>
      (simp only [prepareDocumentForArchive, hd, hp]; split <;> simp [hd])

theorem prepare_type (now : Now) (d : Doc) :
    (prepareDocumentForArchive now d).type = d.type := by
  rcases hd : d.date with _ | ds
  · simp only [prepareDocumentForArchive, hd]; split <;> rfl
  · rcases hp : pyFromIsoFormat (replaceZ ds) with _ | pd <;>
      (simp only [prepareDocumentForArchive, hd, hp]; split <;> rfl)

theorem prepare_url (now : Now) (d : Doc) :
    (prepareDocumentForArchive now d).url
      = if d.url.getD "" = "" then some (slugUrl d) else d.url := by
  rcases hd : d.date with _ | ds
  · simp only [prepareDocumentForArchive, hd]
    by_cases h : d.url.getD "" = "" <;> simp [h, slugUrl]
  · rcases hp : pyFromIsoFormat (replaceZ ds) with _ | pd <;>
      (simp only [prepareDocumentForArchive, hd, hp];
       by_cases h : d.url.getD "" = "" <;> simp [h, slugUrl])

theorem prepare_url_getD (now : Now) (d : Doc) :
    (prepareDocumentForArchive now d).url.getD "" = effUrl d := by
  rw [prepare_url, effUrl]
  by_cases h : d.url.getD "" = "" <;> simp [h]

theorem isDuplicate_iff (c : Doc) (l : List Doc) :
    isDuplicateDocument c l = true
      ↔ ∃ e ∈ l, (titleDateMatch c e || urlMatch c e) = true := by
  simp [isDuplicateDocument, List.any_eq_true]

theorem isDuplicate_append (c : Doc) (l1 l2 : List Doc) :
    isDuplicateDocument c (l1 ++ l2)
      = (isDuplicateDocument c l1 || isDuplicateDocument c l2) := by
  simp [isDuplicateDocument, List.any_append]

theorem isDuplicate_mono (c : Doc) (l1 l2 : List Doc)
    (h : isDuplicateDocument c l1 = true) :
    isDuplicateDocument c (l1 ++ l2) = true := by
  simp [isDuplicate_append, h]

theorem titleDateMatch_prepare (now : Now) (c e : Doc) :
    titleDateMatch c (prepareDocumentForArchive now e) = titleDateMatch c e := by
  simp [titleDateMatch, prepare_title, prepare_date]

theorem titleDateMatch_self (c : Doc) : titleDateMatch c c = true := by
  simp [titleDateMatch]

theorem isDuplicate_self_prepared (now : Now) (c : Doc) (l1 l2 : List Doc) :
    isDuplicateDocument c (l1 ++ prepareDocumentForArchive now c :: l2) = true := by
  refine (isDuplicate_iff _ _).2 ⟨prepareDocumentForArchive now c, by simp, ?_⟩
  simp [titleDateMatch_prepare, titleDateMatch_self]

/-- C2: the Dedup Matcher flags a candidate against an existing collection
exactly when some existing record passes the trimmed-title-and-exact-date test
or the both-non-empty-equal-URL test, absent fields read as empty strings; in
particular a candidate sharing title and date but not URL with a stored record
is a duplicate, as is one sharing only a non-empty URL. -/
theorem dedup_matcher_spec :
    (∀ (c : Doc) (existing : List Doc),
        isDuplicateDocument c existing = true
          ↔ ∃ e ∈ existing,
              ((pyStrip (c.title.getD "") = pyStrip (e.title.getD "")
                  ∧ c.date.getD "" = e.date.getD "")
               ∨ (c.url.getD "" ≠ "" ∧ e.url.getD "" ≠ ""
                  ∧ c.url.getD "" = e.url.getD "")))
    ∧ isDuplicateDocument
        { title := some "X", date := some "2025-06-01", url := some "different" }
        [{ title := some "X", date := some "2025-06-01", url := some "" }] = true
    ∧ isDuplicateDocument
        { title := some "T2", date := some "2025-06-02", url := some "https://a/b.pdf" }
        [{ title := some "T1", date := some "2025-06-01", url := some "https://a/b.pdf" }]
        = true := by
  refine ⟨?_, by decide, by decide⟩
  intro c existing
  simp only [isDuplicateDocument, List.any_eq_true, titleDateMatch, urlMatch,
    Bool.or_eq_true, Bool.and_eq_true, beq_iff_eq, bne_iff_ne]
  exact exists_congr fun e => and_congr_right fun _ => by tauto

/-- C3 counterexample: a candidate whose title, date and url are all missing is
flagged as a duplicate of an existing record that also has them all missing -
the title+date test compares two empty strings. -/
theorem empty_candidate_flagged :
    isDuplicateDocument ({} : Doc) [({} : Doc)] = true := by decide

/-- C3 amended: a candidate with empty (or missing) title, date and url is
never matched through the URL test, and is a duplicate exactly when some
existing record also has an empty trimmed title and an empty date. -/
theorem empty_candidate_dedup (c : Doc) (existing : List Doc)
    (ht : c.title.getD "" = "") (hd : c.date.getD "" = "")
    (hu : c.url.getD "" = "") :
    isDuplicateDocument c existing = true
      ↔ ∃ e ∈ existing, pyStrip (e.title.getD "") = "" ∧ e.date.getD "" = "" := by
  have hs : pyStrip (c.title.getD "") = "" := by rw [ht]; decide
  simp only [isDuplicateDocument, List.any_eq_true, titleDateMatch, urlMatch,
    hs, hd, hu, Bool.or_eq_true, Bool.and_eq_true, beq_iff_eq, bne_iff_ne]
  refine exists_congr fun e => and_congr_right fun _ => ?_
  constructor
  · rintro (⟨h1, h2⟩ | ⟨⟨h1, _⟩, _⟩)
    · exact ⟨h1.symm, h2.symm⟩
    · exact absurd rfl h1
  · rintro ⟨h1, h2⟩
    exact Or.inl ⟨h1.symm, h2.symm⟩

theorem empty_candidate_dedup_witness :
    isDuplicateDocument ({} : Doc) [{ title := some " ", url := some "u" }] = true := by
  exact (empty_candidate_dedup {} [{ title := some " ", url := some "u" }]
    (by decide) (by decide) (by decide)).mpr
    ⟨{ title := some " ", url := some "u" }, by decide, by decide, by decide⟩

/-- C1 counterexample: a record with no `date` field, merged while the clock
reads 2025-03-01, is archived with no `month` and no `year` at all - the
fallback does not run, because the code only derives `month`/`year` when a
`date` key is present. -/
theorem month_fallback_missing_date :
    ((archAgendas (appendToArchive nowMarch2025
          [("City Council", { agendas := [{ title := some "No Date Doc" }] })]
          []).1 "City Council").map (fun d => (d.month, d.year)) = [(none, none)])
    ∧ ((archAgendas (appendToArchive nowMarch2025
          [("City Council", { agendas := [{ title := some "No Date Doc" }] })]
          []).1 "City Council").map (fun d => d.month) ≠ [some "March 2025"]) := by
  constructor
  · decide
  · decide

/-- C1 amended: the Metadata Deriver's month/year derivation is a trichotomy -
a parsing `date` yields the date's own full month name plus year and its
integer year; a present but unparseable `date` yields the current processing
time's values; a missing `date` leaves `month` and `year` untouched (absent on
fresh batch records). -/
theorem month_year_derivation (now : Now) (d : Doc) :
    (∃ ds pd, d.date = some ds ∧ pyFromIsoFormat (replaceZ ds) = some pd
        ∧ (prepareDocumentForArchive now d).month = some (monthYearString pd)
        ∧ (prepareDocumentForArchive now d).year = some pd.year)
    ∨ (∃ ds, d.date = some ds ∧ pyFromIsoFormat (replaceZ ds) = none
        ∧ (prepareDocumentForArchive now d).month = some now.monthYear
        ∧ (prepareDocumentForArchive now d).year = some now.year)
    ∨ (d.date = none
        ∧ (prepareDocumentForArchive now d).month = d.month
        ∧ (prepareDocumentForArchive now d).year = d.year) := by
  rcases hd : d.date with _ | ds
  · refine Or.inr (Or.inr ⟨rfl, ?_, ?_⟩) <;>
      (simp only [prepareDocumentForArchive, hd]; split <;> rfl)
  · rcases hp : pyFromIsoFormat (replaceZ ds) with _ | pd
    · refine Or.inr (Or.inl ⟨ds, rfl, hp, ?_, ?_⟩) <;>
        (simp only [prepareDocumentForArchive, hd, hp]; split <;> rfl)
    · refine Or.inl ⟨ds, pd, rfl, hp, ?_, ?_⟩ <;>
        (simp only [prepareDocumentForArchive, hd, hp]; split <;> rfl)

theorem charLt_asymm {c1 c2 : Char} (h : charLt c1 c2 = true) : charLt c2 c1 = false := by
  simp only [charLt, decide_eq_true_eq] at h
  simp only [charLt, decide_eq_false_iff_not]
  omega

theorem strLtChars_trans : ∀ {a b c : List Char},
    strLtChars a b = true → strLtChars b c = true → strLtChars a c = true := by
  intro a
  induction a with
  | nil =>
    intro b c h1 h2
    cases b with
    | nil => simp [strLtChars] at h1
    | cons y u =>
      cases c with
      | nil => simp [strLtChars] at h2
      | cons z v => simp [strLtChars]
  | cons x t ih =>
    intro b c h1 h2
    cases b with
    | nil => simp [strLtChars] at h1
    | cons y u =>
      cases c with
      | nil => simp [strLtChars] at h2
      | cons z v =>
        simp only [strLtChars, charLt, decide_eq_true_eq] at h1 h2 ⊢
        split_ifs at h1 h2 ⊢ with g1 g2 g3 g4 g5 g6 <;> try omega
        all_goals simp_all
        exact ih h1 h2

theorem strLtChars_asymm : ∀ {a b : List Char},
    strLtChars a b = true → strLtChars b a = false := by
  intro a
  induction a with
  | nil => intro b h; cases b <;> simp_all [strLtChars]
  | cons c t ih =>
    intro b h
    cases b with
    | nil => simp [strLtChars] at h
    | cons d u =>
      simp only [strLtChars] at h ⊢
      cases g1 : charLt c d with
      | true => simp [g1, charLt_asymm g1]
      | false =>
        cases g2 : charLt d c with
        | true => simp [g1, g2] at h
        | false =>
          simp only [g1, g2] at h ⊢
          simpa using ih (by simpa using h)

theorem strLt_asymm {a b : String} (h : strLt a b = true) : strLt b a = false :=
  strLtChars_asymm h

theorem strLt_trans {a b c : String} (h1 : strLt a b = true) (h2 : strLt b c = true) :
    strLt a c = true := strLtChars_trans h1 h2

theorem strLe_of_lt {a b : String} (h : strLt a b = true) : strLe a b = true := by
  unfold strLe
  simp [strLt_asymm h]

theorem strLe_lt_step {a b c : String} (h1 : strLe a b = true) (h2 : strLt b c = true) :
    strLe a c = true := by
  unfold strLe at h1 ⊢
  cases hca : strLt c a with
  | false => simp
  | true =>
    have := strLt_trans h2 hca
    simp [this] at h1

theorem mem_insertDocDesc {d x : Doc} : ∀ {l : List Doc},
    x ∈ insertDocDesc d l ↔ x = d ∨ x ∈ l := by
  intro l
  induction l with
  | nil => simp [insertDocDesc]
  | cons e es ih =>
    simp only [insertDocDesc]
    split
    · simp only [List.mem_cons]
    · simp only [List.mem_cons, ih]
      tauto

theorem insertDocDesc_perm (d : Doc) (l : List Doc) : (insertDocDesc d l).Perm (d :: l) := by
  induction l with
  | nil => exact List.Perm.refl _
  | cons e es ih =>
    simp only [insertDocDesc]
    split
    · exact List.Perm.refl _
    · exact (ih.cons e).trans (List.Perm.swap d e es)

theorem insertDocDesc_pairwise {d : Doc} {l : List Doc}
    (h : l.Pairwise DescOrd) : (insertDocDesc d l).Pairwise DescOrd := by
  induction l with
  | nil => simp [insertDocDesc, DescOrd]
  | cons e es ih =>
    rcases List.pairwise_cons.1 h with ⟨he, hes⟩
    simp only [insertDocDesc]
    split
    · rename_i hlt
      refine List.pairwise_cons.2 ⟨?_, h⟩
      intro z hz
      rcases List.mem_cons.1 hz with rfl | hz'
      · exact strLe_of_lt hlt
      · exact strLe_lt_step (he z hz') hlt
    · rename_i hnlt
      refine List.pairwise_cons.2 ⟨?_, ih hes⟩
      intro z hz
      rcases mem_insertDocDesc.1 hz with rfl | hz'
      · unfold DescOrd strLe
        simp only [Bool.not_eq_true] at hnlt
        simp [hnlt]
      · exact he z hz'

theorem sortDocsByDateDesc_perm (l : List Doc) : (sortDocsByDateDesc l).Perm l := by
  induction l with
  | nil => exact List.Perm.refl _
  | cons d ds ih => exact (insertDocDesc_perm d _).trans (ih.cons d)

theorem sortDocsByDateDesc_pairwise (l : List Doc) :
    (sortDocsByDateDesc l).Pairwise DescOrd := by
  induction l with
  | nil => simp [sortDocsByDateDesc]
  | cons d ds ih => exact insertDocDesc_pairwise ih

theorem sort_stage_desc (a : Archive) (name : String) (b : Body)
    (h : (name, b) ∈ a) :
    ∃ b', (name, b') ∈ sortArchiveDocuments a
      ∧ b'.agendas.Perm b.agendas ∧ b'.minutes.Perm b.minutes
      ∧ b'.agendas.Pairwise DescOrd ∧ b'.minutes.Pairwise DescOrd := by
  refine ⟨⟨sortDocsByDateDesc b.agendas, sortDocsByDateDesc b.minutes⟩, ?_,
    sortDocsByDateDesc_perm _, sortDocsByDateDesc_perm _,
    sortDocsByDateDesc_pairwise _, sortDocsByDateDesc_pairwise _⟩
  exact List.mem_map.2 ⟨(name, b), h, rfl⟩

theorem sort_stage_desc_witness :
    ((sortArchiveDocuments
        [("B", { agendas := [{ date := some "2025-01-01" }, { date := some "2025-03-01" },
                             { date := some "2025-02-01" }] })]).map
        (fun p => p.2.agendas.map dateKey) = [["2025-03-01", "2025-02-01", "2025-01-01"]])
    ∧ (∃ b', (("B", b') ∈ sortArchiveDocuments
          [("B", { agendas := [{ date := some "2025-01-01" }, { date := some "2025-03-01" },
                               { date := some "2025-02-01" }] })])
        ∧ b'.agendas.Perm [{ date := some "2025-01-01" }, { date := some "2025-03-01" },
                           { date := some "2025-02-01" }]
        ∧ b'.minutes.Perm []
        ∧ b'.agendas.Pairwise DescOrd ∧ b'.minutes.Pairwise DescOrd) :=
  ⟨by decide,
   sort_stage_desc
     [("B", { agendas := [{ date := some "2025-01-01" }, { date := some "2025-03-01" },
                          { date := some "2025-02-01" }] })]
     "B"
     { agendas := [{ date := some "2025-01-01" }, { date := some "2025-03-01" },
                   { date := some "2025-02-01" }] }
     (by decide)⟩

theorem lookupBody_append (a : Archive) (l2 : Archive) (name : String) :
    lookupBody (a ++ l2) name
      = match lookupBody a name with
        | some b => some b
        | none => lookupBody l2 name := by
  unfold lookupBody
  rw [List.find?_append]
  cases a.find? (fun p => p.1 == name) <;> simp [Option.orElse]

theorem lookupBody_singleton (n : String) (b : Body) (name : String) :
    lookupBody [(n, b)] name = if n == name then some b else none := by
  unfold lookupBody
  by_cases h : (n == name) <;> simp [List.find?, h]

theorem lookupBody_extend_isSome (a : Archive) (name : String) :
    (lookupBody (if (lookupBody a name).isSome then a
                 else a ++ [(name, ({} : Body))]) name).isSome := by
  cases h : lookupBody a name with
  | some b => simp [h]
  | none =>
    simp only [h, Option.isSome_none, Bool.false_eq_true, if_false]
    rw [lookupBody_append, h, lookupBody_singleton]
    simp

theorem lookupBody_extend_ne (a : Archive) (name x : String) (hx : x ≠ name) :
    lookupBody (if (lookupBody a name).isSome then a
                else a ++ [(name, ({} : Body))]) x = lookupBody a x := by
  cases h : lookupBody a name with
  | some b => simp [h]
  | none =>
    simp only [h, Option.isSome_none, Bool.false_eq_true, if_false]
    rw [lookupBody_append, lookupBody_singleton]
    have : (name == x) = false := by simp [Ne.symm hx]
    rw [this]
    cases lookupBody a x <;> simp

theorem lookupBody_updateBody_self (a : Archive) (name : String) (b : Body)
    (h : (lookupBody a name).isSome) :
    lookupBody (updateBody a name b) name = some b := by
  induction a with
  | nil => simp [lookupBody] at h
  | cons p rest ih =>
    obtain ⟨n, b0⟩ := p
    by_cases hn : (n == name)
    · simp [updateBody, hn, lookupBody, List.find?]
    · simp only [updateBody, hn, Bool.false_eq_true, if_false]
      simp only [lookupBody, List.find?, hn] at h ⊢
      exact ih h

theorem lookupBody_updateBody_ne (a : Archive) (name x : String) (b : Body)
    (hx : x ≠ name) :
    lookupBody (updateBody a name b) x = lookupBody a x := by
  induction a with
  | nil => simp [updateBody]
  | cons p rest ih =>
    obtain ⟨n, b0⟩ := p
    by_cases hn : (n == name)
    · have hnx : (n == x) = false := by
        have : n = name := by simpa using hn
        simp [this, Ne.symm hx]
      simp [updateBody, hn, lookupBody, List.find?, hnx]
    · simp only [updateBody, hn, Bool.false_eq_true, if_false]
      by_cases hnx : (n == x)
      · simp [lookupBody, List.find?, hnx]
      · simp only [lookupBody, List.find?, hnx, Bool.false_eq_true, if_false] at ih ⊢
        exact ih

theorem updateBody_self (a : Archive) (name : String) (b : Body)
    (h : lookupBody a name = some b) :
    updateBody a name b = a := by
  induction a with
  | nil => simp [updateBody]
  | cons p rest ih =>
    obtain ⟨n, b0⟩ := p
    by_cases hn : (n == name)
    · simp only [lookupBody, List.find?, hn] at h
      simp at h
      simp [updateBody, hn, h]
    · simp only [lookupBody, List.find?, hn, Bool.false_eq_true, if_false] at h
      simp [updateBody, hn, ih h]


theorem processDocs_exists_append (now : Now) (cs : List Doc) : ∀ (ex : List Doc),
    ∃ t, (processDocs now cs ex).1 = ex ++ t := by
  induction cs with
  | nil => intro ex; exact ⟨[], by simp [processDocs]⟩
  | cons c cs ih =>
    intro ex
    simp only [processDocs]
    split
    · exact ih ex
    · obtain ⟨t, ht⟩ := ih (ex ++ [prepareDocumentForArchive now c])
      exact ⟨prepareDocumentForArchive now c :: t, by simp [ht]⟩

theorem appendToArchive_lookup_not_mem (now : Now) (B : List (String × Body)) :
    ∀ (A : Archive) (name : String), name ∉ B.map Prod.fst →
    lookupBody (appendToArchive now B A).1 name = lookupBody A name := by
  induction B with
  | nil => intro A name _; rfl
  | cons p rest ih =>
    intro A name h
    obtain ⟨n, bd⟩ := p
    simp only [List.map_cons, List.mem_cons] at h
    push_neg at h
    obtain ⟨hne, hrest⟩ := h
    simp only [appendToArchive]
    rw [ih _ name hrest]
    rw [lookupBody_updateBody_ne _ _ _ _ hne]
    exact lookupBody_extend_ne A n name hne

theorem appendToArchive_lookup_extends (now : Now) (B : List (String × Body)) :
    ∀ (A : Archive) (name : String) (b : Body), lookupBody A name = some b →
    ∃ b', lookupBody (appendToArchive now B A).1 name = some b'
      ∧ (∃ t1, b'.agendas = b.agendas ++ t1) ∧ (∃ t2, b'.minutes = b.minutes ++ t2) := by
  induction B with
  | nil =>
    intro A name b h
    exact ⟨b, h, ⟨[], by simp⟩, ⟨[], by simp⟩⟩
  | cons p rest ih =>
    intro A name b h
    obtain ⟨n, bd⟩ := p
    simp only [appendToArchive]
    by_cases hx : name = n
    · subst hx
      have ha1 : lookupBody (if (lookupBody A name).isSome then A
          else A ++ [(name, ({} : Body))]) name = some b := by
        simp [h]
      rw [ha1]
      have h2 : lookupBody (updateBody (if (lookupBody A name).isSome then A
            else A ++ [(name, ({} : Body))]) name
            (processBody now bd ((some b).getD {})).1) name
          = some (processBody now bd ((some b).getD {})).1 :=
        lookupBody_updateBody_self _ _ _ (by rw [ha1]; rfl)
      obtain ⟨b2, hb2, ⟨t1, ht1⟩, ⟨t2, ht2⟩⟩ := ih _ name _ h2
      obtain ⟨ta, hta⟩ := processDocs_exists_append now bd.agendas b.agendas
      obtain ⟨tm, htm⟩ := processDocs_exists_append now bd.minutes b.minutes
      have hpa : (processBody now bd ((some b).getD ({} : Body))).1.agendas
          = b.agendas ++ ta := hta
      have hpm : (processBody now bd ((some b).getD ({} : Body))).1.minutes
          = b.minutes ++ tm := htm
      refine ⟨b2, hb2, ⟨ta ++ t1, ?_⟩, ⟨tm ++ t2, ?_⟩⟩
      · rw [ht1, hpa, List.append_assoc]
      · rw [ht2, hpm, List.append_assoc]
    · have ha1 : lookupBody (if (lookupBody A n).isSome then A
          else A ++ [(n, ({} : Body))]) name = some b := by
        cases hn : lookupBody A n with
        | some b3 => simpa [hn] using h
        | none =>
          simp only [hn, Option.isSome_none, Bool.false_eq_true, if_false]
          rw [lookupBody_append, h]
      have h2 : lookupBody (updateBody (if (lookupBody A n).isSome then A
            else A ++ [(n, ({} : Body))]) n
            (processBody now bd ((lookupBody (if (lookupBody A n).isSome then A
              else A ++ [(n, ({} : Body))]) n).getD {})).1) name = some b := by
        rw [lookupBody_updateBody_ne _ _ _ _ hx]
        exact ha1
      exact ih _ name b h2


theorem processDocs_all_dup (now : Now) (cs : List Doc) : ∀ (ex : List Doc),
    (∀ c ∈ cs, isDuplicateDocument c ex = true) →
    processDocs now cs ex = (ex, 0) := by
  induction cs with
  | nil => intro ex _; rfl
  | cons c cs ih =>
    intro ex h
    have hc := h c (by simp)
    simp only [processDocs, hc, if_true]
    exact ih ex fun c2 hc2 => h c2 (by simp [hc2])

theorem dup_of_mem_processDocs (now : Now) (cs : List Doc) : ∀ (ex : List Doc), ∀ c ∈ cs,
    isDuplicateDocument c (processDocs now cs ex).1 = true := by
  induction cs with
  | nil => intro ex c hc; simp at hc
  | cons c0 cs ih =>
    intro ex c hc
    simp only [processDocs]
    cases hdup : isDuplicateDocument c0 ex with
    | true =>
      simp only [if_true]
      rcases List.mem_cons.1 hc with rfl | hc'
      · obtain ⟨t, ht⟩ := processDocs_exists_append now cs ex
        rw [ht]
        exact isDuplicate_mono _ _ _ hdup
      · exact ih ex c hc'
    | false =>
      simp only [Bool.false_eq_true, if_false]
      rcases List.mem_cons.1 hc with rfl | hc'
      · obtain ⟨t, ht⟩ := processDocs_exists_append now cs
          (ex ++ [prepareDocumentForArchive now c])
        show isDuplicateDocument c (processDocs now cs
          (ex ++ [prepareDocumentForArchive now c])).1 = true
        rw [ht, List.append_assoc, List.singleton_append]
        exact isDuplicate_self_prepared now c ex t
      · exact ih _ c hc'

theorem appendToArchive_mem_dup (now : Now) (B : List (String × Body)) :
    ∀ (A : Archive), ∀ p ∈ B,
      (lookupBody (appendToArchive now B A).1 p.1).isSome
      ∧ (∀ c ∈ p.2.agendas,
          isDuplicateDocument c (archAgendas (appendToArchive now B A).1 p.1) = true)
      ∧ (∀ c ∈ p.2.minutes,
          isDuplicateDocument c (archMinutes (appendToArchive now B A).1 p.1) = true) := by
  induction B with
  | nil => intro A p hp; simp at hp
  | cons q rest ih =>
    intro A p hp
    obtain ⟨n, bd⟩ := q
    rcases List.mem_cons.1 hp with rfl | hp'
    · simp only [appendToArchive]
      have hsome : (lookupBody (if (lookupBody A n).isSome then A
          else A ++ [(n, ({} : Body))]) n).isSome := lookupBody_extend_isSome A n
      have h2 : lookupBody (updateBody (if (lookupBody A n).isSome then A
            else A ++ [(n, ({} : Body))]) n
            (processBody now bd ((lookupBody (if (lookupBody A n).isSome then A
              else A ++ [(n, ({} : Body))]) n).getD {})).1) n
          = some (processBody now bd ((lookupBody (if (lookupBody A n).isSome then A
              else A ++ [(n, ({} : Body))]) n).getD {})).1 :=
        lookupBody_updateBody_self _ _ _ hsome
      obtain ⟨b2, hb2, ⟨t1, ht1⟩, ⟨t2, ht2⟩⟩ :=
        appendToArchive_lookup_extends now rest _ n _ h2
      refine ⟨?_, ?_, ?_⟩
      · rw [hb2]; rfl
      · intro c hc
        unfold archAgendas
        rw [hb2]
        show isDuplicateDocument c b2.agendas = true
        rw [ht1]
        exact isDuplicate_mono _ _ _ (dup_of_mem_processDocs now bd.agendas _ c hc)
      · intro c hc
        unfold archMinutes
        rw [hb2]
        show isDuplicateDocument c b2.minutes = true
        rw [ht2]
        exact isDuplicate_mono _ _ _ (dup_of_mem_processDocs now bd.minutes _ c hc)
    · simp only [appendToArchive]
      exact ih _ p hp'

theorem appendToArchive_all_dup (now : Now) (B : List (String × Body)) :
    ∀ (A : Archive),
    (∀ p ∈ B, (lookupBody A p.1).isSome
      ∧ (∀ c ∈ p.2.agendas, isDuplicateDocument c (archAgendas A p.1) = true)
      ∧ (∀ c ∈ p.2.minutes, isDuplicateDocument c (archMinutes A p.1) = true)) →
    appendToArchive now B A = (A, 0, ∅) := by
  induction B with
  | nil => intro A _; rfl
  | cons q rest ih =>
    intro A h
    obtain ⟨n, bd⟩ := q
    obtain ⟨hsome, hag, hmin⟩ := h (n, bd) (by simp)
    obtain ⟨b, hb⟩ := Option.isSome_iff_exists.1 hsome
    have hbag : archAgendas A n = b.agendas := by unfold archAgendas; rw [hb]; rfl
    have hbmin : archMinutes A n = b.minutes := by unfold archMinutes; rw [hb]; rfl
    have hag2 : ∀ c ∈ bd.agendas, isDuplicateDocument c b.agendas = true := by
      intro c hc; have := hag c hc; rwa [hbag] at this
    have hmin2 : ∀ c ∈ bd.minutes, isDuplicateDocument c b.minutes = true := by
      intro c hc; have := hmin c hc; rwa [hbmin] at this
    have hpb : processBody now bd b = (b, 0) := by
      unfold processBody
      rw [processDocs_all_dup now bd.agendas b.agendas hag2,
          processDocs_all_dup now bd.minutes b.minutes hmin2]
      rfl
    simp only [appendToArchive, hb, Option.isSome_some, if_true, Option.getD_some, hpb]
    rw [updateBody_self A n b hb]
    rw [ih A fun p hp => h p (by simp [hp])]
    rfl

/-- C4: merge is idempotent - re-merging the same batch into the archive it
already produced (at any later clock) returns that archive unchanged, reports
zero new documents and touches no body. -/
theorem merge_idempotent (now now2 : Now) (B : List (String × Body)) (A : Archive) :
    appendToArchive now2 B (appendToArchive now B A).1
      = ((appendToArchive now B A).1, 0, (∅ : Finset String)) := by
  apply appendToArchive_all_dup
  intro p hp
  exact appendToArchive_mem_dup now B A p hp


/-- C7: merge is non-destructive - a body absent from the batch keeps exactly
its stored bucket, and every bucket present before the merge survives as a
prefix of the merged bucket (no record removed or modified). -/
theorem merge_non_destructive (now : Now) (B : List (String × Body)) (A : Archive)
    (name : String) :
    (name ∉ B.map Prod.fst →
      lookupBody (appendToArchive now B A).1 name = lookupBody A name)
    ∧ (∀ b, lookupBody A name = some b →
        ∃ b', lookupBody (appendToArchive now B A).1 name = some b'
          ∧ (∃ t1, b'.agendas = b.agendas ++ t1)
          ∧ (∃ t2, b'.minutes = b.minutes ++ t2)) :=
  ⟨fun h => appendToArchive_lookup_not_mem now B A name h,
   fun b hb => appendToArchive_lookup_extends now B A name b hb⟩

theorem merge_non_destructive_witness :
    (lookupBody (appendToArchive nowMarch2025
        [("City Council", { agendas := [{ title := some "CC", date := some "2025-05-01" }] })]
        [("Other Board", { agendas := [{ title := some "OB" }] })]).1 "Other Board"
      = lookupBody [("Other Board", { agendas := [{ title := some "OB" }] })] "Other Board")
    ∧ (∃ b', lookupBody (appendToArchive nowMarch2025
          [("City Council", { agendas := [{ title := some "CC", date := some "2025-05-01" }] })]
          [("Other Board", { agendas := [{ title := some "OB" }] })]).1 "Other Board"
        = some b'
        ∧ (∃ t1, b'.agendas = [({ title := some "OB" } : Doc)] ++ t1)
        ∧ (∃ t2, b'.minutes = ([] : List Doc) ++ t2)) :=
  ⟨(merge_non_destructive nowMarch2025
      [("City Council", { agendas := [{ title := some "CC", date := some "2025-05-01" }] })]
      [("Other Board", { agendas := [{ title := some "OB" }] })] "Other Board").1 (by decide),
   (merge_non_destructive nowMarch2025
      [("City Council", { agendas := [{ title := some "CC", date := some "2025-05-01" }] })]
      [("Other Board", { agendas := [{ title := some "OB" }] })] "Other Board").2
      { agendas := [{ title := some "OB" }] } (by decide)⟩


/-- C9 counterexample: the spec's scenario record carries no `type` field, so
the synthesized placeholder uses the default "document" - the archived url is
"https://lcf.ca.gov/documents/pc_agenda.pdf", which does not end in
"agendas/pc_agenda.pdf". -/
theorem url_backfill_type_default :
    ((archAgendas (appendToArchive nowMarch2025
        [("Planning Commission", { agendas := [pcAgendaDoc] })] []).1
        "Planning Commission").map (fun d => d.url)
      = [some "https://lcf.ca.gov/documents/pc_agenda.pdf"])
    ∧ strEndsWith "https://lcf.ca.gov/documents/pc_agenda.pdf" "agendas/pc_agenda.pdf"
        = false := by
  constructor
  · decide
  · decide

/-- C9 amended: for every record archived with an empty or missing url the
Metadata Deriver synthesizes `https://lcf.ca.gov/<type>s/<slug>.pdf`, where the
type comes from the record's own `type` field (defaulting to "document") and
the slug is the title with spaces replaced by underscores, lowercased; the
scenario record with `type:"agenda"` added is archived under the body's agendas
as one record with historical=true, month "July 2025", year 2025, and a url
ending in "agendas/pc_agenda.pdf". -/
theorem url_backfill_synthesis :
    (∀ (now : Now) (d : Doc), d.url.getD "" = "" →
      (prepareDocumentForArchive now d).url
        = some ("https://lcf.ca.gov/" ++ d.type.getD "document" ++ "s/"
            ++ pyLower (underscoreSpaces (d.title.getD "")) ++ ".pdf"))
    ∧ ((archAgendas (appendToArchive nowMarch2025
          [("Planning Commission", { agendas := [pcAgendaTypedDoc] })] []).1
          "Planning Commission").map
          (fun d => (d.historical, d.month, d.year,
            strEndsWith (d.url.getD "") "agendas/pc_agenda.pdf"))
        = [(true, some "July 2025", some 2025, true)]) := by
  constructor
  · intro now d h
    rw [prepare_url]
    simp [h, slugUrl]
  · decide

theorem url_backfill_synthesis_witness :
    (pcAgendaTypedDoc.url.getD "" = "")
    ∧ (prepareDocumentForArchive nowMarch2025 pcAgendaTypedDoc).url
        = some "https://lcf.ca.gov/agendas/pc_agenda.pdf" :=
  ⟨by decide, by
    rw [url_backfill_synthesis.1 nowMarch2025 pcAgendaTypedDoc (by decide)]
    decide⟩

theorem docSim_refl (d : Doc) : DocSim d d := ⟨rfl, rfl, rfl⟩

theorem bodySim_refl (b : Body) : BodySim b b :=
  ⟨List.forall₂_same.2 fun d _ => docSim_refl d, List.forall₂_same.2 fun d _ => docSim_refl d⟩

theorem archSim_refl (a : Archive) : ArchSim a a :=
  List.forall₂_same.2 fun p _ => ⟨rfl, bodySim_refl p.2⟩

theorem titleDateMatch_simR {c e1 e2 : Doc} (h : DocSim e1 e2) :
    titleDateMatch c e1 = titleDateMatch c e2 := by
  obtain ⟨h1, h2, _⟩ := h
  simp [titleDateMatch, h1, h2]

theorem urlMatch_simR {c e1 e2 : Doc} (h : DocSim e1 e2) :
    urlMatch c e1 = urlMatch c e2 := by
  obtain ⟨_, _, h3⟩ := h
  simp [urlMatch, h3]

theorem isDuplicate_simR {c : Doc} : ∀ {l1 l2 : List Doc}, List.Forall₂ DocSim l1 l2 →
    isDuplicateDocument c l1 = isDuplicateDocument c l2 := by
  intro l1 l2 h
  induction h with
  | nil => rfl
  | @cons d1 d2 t1 t2 hd _ ih =>
    simp only [isDuplicateDocument, List.any_cons] at ih ⊢
    rw [titleDateMatch_simR hd, urlMatch_simR hd, ih]

theorem prepare_sim (now1 now2 : Now) (d : Doc) :
    DocSim (prepareDocumentForArchive now1 d) (prepareDocumentForArchive now2 d) := by
  refine ⟨?_, ?_, ?_⟩
  · rw [prepare_title, prepare_title]
  · rw [prepare_date, prepare_date]
  · rw [prepare_url, prepare_url]

theorem processDocs_sim (now1 now2 : Now) (cs : List Doc) : ∀ {ex1 ex2 : List Doc},
    List.Forall₂ DocSim ex1 ex2 →
    List.Forall₂ DocSim (processDocs now1 cs ex1).1 (processDocs now2 cs ex2).1
    ∧ (processDocs now1 cs ex1).2 = (processDocs now2 cs ex2).2 := by
  induction cs with
  | nil => intro ex1 ex2 h; exact ⟨h, rfl⟩
  | cons c cs ih =>
    intro ex1 ex2 h
    have hdup : isDuplicateDocument c ex1 = isDuplicateDocument c ex2 :=
      isDuplicate_simR h
    simp only [processDocs]
    cases hd : isDuplicateDocument c ex2 with
    | true =>
      rw [hdup, hd]
      simp only [if_true]
      exact ih h
    | false =>
      rw [hdup, hd]
      simp only [Bool.false_eq_true, if_false]
      have hex : List.Forall₂ DocSim (ex1 ++ [prepareDocumentForArchive now1 c])
          (ex2 ++ [prepareDocumentForArchive now2 c]) :=
        List.rel_append h
          ((List.forall₂_cons).2 ⟨prepare_sim now1 now2 c, List.Forall₂.nil⟩)
      obtain ⟨h1, h2⟩ := ih hex
      exact ⟨h1, by simp [h2]⟩

theorem processBody_sim (now1 now2 : Now) (bd : Body) {ab1 ab2 : Body}
    (h : BodySim ab1 ab2) :
    BodySim (processBody now1 bd ab1).1 (processBody now2 bd ab2).1
    ∧ (processBody now1 bd ab1).2 = (processBody now2 bd ab2).2 := by
  obtain ⟨ha, hm⟩ := h
  obtain ⟨ha1, ha2⟩ := processDocs_sim now1 now2 bd.agendas ha
  obtain ⟨hm1, hm2⟩ := processDocs_sim now1 now2 bd.minutes hm
  exact ⟨⟨ha1, hm1⟩, by simp [processBody, ha2, hm2]⟩

theorem lookupBody_sim : ∀ {a1 a2 : Archive}, ArchSim a1 a2 → ∀ (n : String),
    (lookupBody a1 n = none ∧ lookupBody a2 n = none)
    ∨ ∃ b1 b2, lookupBody a1 n = some b1 ∧ lookupBody a2 n = some b2 ∧ BodySim b1 b2 := by
  intro a1 a2 h
  induction h with
  | nil => exact fun n => Or.inl ⟨rfl, rfl⟩
  | @cons p q t1 t2 hpq _ ih =>
    intro n
    obtain ⟨hname, hbody⟩ := hpq
    by_cases hn : (p.1 == n)
    · refine Or.inr ⟨p.2, q.2, ?_, ?_, hbody⟩
      · simp [lookupBody, List.find?, hn]
      · simp [lookupBody, List.find?, hname ▸ hn]
    · have hn2 : (q.1 == n) = false := by
        rw [← hname]; simpa using hn
      rcases ih n with ⟨h1, h2⟩ | ⟨b1, b2, h1, h2, hb⟩
      · refine Or.inl ⟨?_, ?_⟩
        · simpa [lookupBody, List.find?, hn] using h1
        · simpa [lookupBody, List.find?, hn2] using h2
      · refine Or.inr ⟨b1, b2, ?_, ?_, hb⟩
        · simpa [lookupBody, List.find?, hn] using h1
        · simpa [lookupBody, List.find?, hn2] using h2

theorem updateBody_sim : ∀ {a1 a2 : Archive}, ArchSim a1 a2 →
    ∀ (n : String) {b1 b2 : Body}, BodySim b1 b2 →
    ArchSim (updateBody a1 n b1) (updateBody a2 n b2) := by
  intro a1 a2 h
  induction h with
  | nil => intro n b1 b2 _; exact List.Forall₂.nil
  | @cons p q t1 t2 hpq htl ih =>
    intro n b1 b2 hb
    obtain ⟨hname, hbody⟩ := hpq
    obtain ⟨pn, pb⟩ := p
    obtain ⟨qn, qb⟩ := q
    simp only at hname
    subst hname
    by_cases hn : (pn == n)
    · simp only [updateBody, hn, if_true]
      exact List.Forall₂.cons ⟨rfl, hb⟩ htl
    · simp only [updateBody, hn, Bool.false_eq_true, if_false]
      exact List.Forall₂.cons ⟨rfl, hbody⟩ (ih n hb)

theorem appendToArchive_sim (now1 now2 : Now) (B : List (String × Body)) :
    ∀ {A1 A2 : Archive}, ArchSim A1 A2 →
    ArchSim (appendToArchive now1 B A1).1 (appendToArchive now2 B A2).1
    ∧ (appendToArchive now1 B A1).2 = (appendToArchive now2 B A2).2 := by
  induction B with
  | nil => intro A1 A2 h; exact ⟨h, rfl⟩
  | cons q rest ih =>
    intro A1 A2 h
    obtain ⟨n, bd⟩ := q
    simp only [appendToArchive]
    have hstep : ArchSim
        (if (lookupBody A1 n).isSome then A1 else A1 ++ [(n, ({} : Body))])
        (if (lookupBody A2 n).isSome then A2 else A2 ++ [(n, ({} : Body))])
        := by
      rcases lookupBody_sim h n with ⟨h1, h2⟩ | ⟨b1, b2, h1, h2, _⟩
      · simp only [h1, h2, Option.isSome_none, Bool.false_eq_true, if_false]
        exact List.rel_append h
          ((List.forall₂_cons).2 ⟨⟨rfl, bodySim_refl _⟩, List.Forall₂.nil⟩)
      · simp only [h1, h2, Option.isSome_some, if_true]
        exact h
    have hab : BodySim
        ((lookupBody (if (lookupBody A1 n).isSome then A1
            else A1 ++ [(n, ({} : Body))]) n).getD {})
        ((lookupBody (if (lookupBody A2 n).isSome then A2
            else A2 ++ [(n, ({} : Body))]) n).getD {}) := by
      rcases lookupBody_sim hstep n with ⟨h1, h2⟩ | ⟨b1, b2, h1, h2, hb⟩
      · rw [h1, h2]; exact bodySim_refl _
      · rw [h1, h2]; exact hb
    obtain ⟨hr1, hr2⟩ := processBody_sim now1 now2 bd hab
    have ha2 : ArchSim
        (updateBody (if (lookupBody A1 n).isSome then A1
          else A1 ++ [(n, ({} : Body))]) n
          (processBody now1 bd ((lookupBody (if (lookupBody A1 n).isSome then A1
            else A1 ++ [(n, ({} : Body))]) n).getD {})).1)
        (updateBody (if (lookupBody A2 n).isSome then A2
          else A2 ++ [(n, ({} : Body))]) n
          (processBody now2 bd ((lookupBody (if (lookupBody A2 n).isSome then A2
            else A2 ++ [(n, ({} : Body))]) n).getD {})).1) :=
      updateBody_sim hstep n hr1
    obtain ⟨hrec1, hrec2⟩ := ih ha2
    refine ⟨hrec1, ?_⟩
    rw [hr2, hrec2]

theorem processDocs_count_zero (now : Now) (cs : List Doc) : ∀ (ex : List Doc),
    (processDocs now cs ex).2 = 0 → (processDocs now cs ex).1 = ex := by
  induction cs with
  | nil => intro ex _; rfl
  | cons c cs ih =>
    intro ex h
    simp only [processDocs] at h ⊢
    cases hd : isDuplicateDocument c ex with
    | true =>
      rw [hd, if_pos rfl] at h
      rw [if_pos rfl]
      exact ih ex h
    | false =>
      rw [hd] at h
      simp at h

theorem appendToArchive_count_zero (now : Now) (B : List (String × Body)) :
    ∀ (A : Archive), (appendToArchive now B A).2.1 = 0 →
    (appendToArchive now B A).1 = addMissingBodies B A := by
  induction B with
  | nil => intro A _; rfl
  | cons q rest ih =>
    intro A h
    obtain ⟨n, bd⟩ := q
    simp only [appendToArchive] at h ⊢
    set a1 := if (lookupBody A n).isSome then A else A ++ [(n, ({} : Body))] with ha1
    set ab := (lookupBody a1 n).getD {} with hab
    set r := processBody now bd ab with hrdef
    have hr : r.2 = 0 := by omega
    have hrag : (processDocs now bd.agendas ab.agendas).2 = 0 := by
      have : r.2 = (processDocs now bd.agendas ab.agendas).2
          + (processDocs now bd.minutes ab.minutes).2 := rfl
      omega
    have hrmin : (processDocs now bd.minutes ab.minutes).2 = 0 := by
      have : r.2 = (processDocs now bd.agendas ab.agendas).2
          + (processDocs now bd.minutes ab.minutes).2 := rfl
      omega
    have hr1 : r.1 = ab := by
      show (⟨(processDocs now bd.agendas ab.agendas).1,
            (processDocs now bd.minutes ab.minutes).1⟩ : Body) = ab
      rw [processDocs_count_zero now bd.agendas ab.agendas hrag,
          processDocs_count_zero now bd.minutes ab.minutes hrmin]
    have hsome : (lookupBody a1 n).isSome := by
      rw [ha1]; exact lookupBody_extend_isSome A n
    obtain ⟨b, hb⟩ := Option.isSome_iff_exists.1 hsome
    have habb : ab = b := by rw [hab, hb]; rfl
    have hup : updateBody a1 n r.1 = a1 := by
      rw [hr1, habb]; exact updateBody_self a1 n b hb
    rw [hup] at h ⊢
    have hrec : (appendToArchive now rest a1).2.1 = 0 := by omega
    show (appendToArchive now rest a1).1 = addMissingBodies ((n, bd) :: rest) A
    rw [ih a1 hrec]
    rfl

/-- C8 counterexample: the merge reads the ambient clock, so two invocations
on equal batch and archive inputs at different times return different results
(the stamped `archived_date` differs on each newly archived record). -/
theorem merge_clock_dependent :
    appendToArchive nowMarch2025 [("B", { agendas := [{ title := some "X" }] })] []
      ≠ appendToArchive nowSept2025 [("B", { agendas := [{ title := some "X" }] })] [] := by
  decide

/-- C8 amended: the merge is a pure function of batch, archive and the current
clock reading: the new-document count and the touched-body set do not depend
on the clock at all, and whenever no document is added the returned archive is
also clock-independent. -/
theorem merge_pure_function (now1 now2 : Now) (B : List (String × Body)) (A : Archive) :
    (appendToArchive now1 B A).2 = (appendToArchive now2 B A).2
    ∧ ((appendToArchive now1 B A).2.1 = 0 →
        (appendToArchive now1 B A).1 = (appendToArchive now2 B A).1) := by
  obtain ⟨_, hcnt⟩ := appendToArchive_sim now1 now2 B (archSim_refl A)
  refine ⟨hcnt, fun h0 => ?_⟩
  have h02 : (appendToArchive now2 B A).2.1 = 0 := by
    rw [← congrArg Prod.fst hcnt]
    exact h0
  rw [appendToArchive_count_zero now1 B A h0,
      appendToArchive_count_zero now2 B A h02]

theorem merge_pure_function_witness :
    ((appendToArchive nowMarch2025 [("B", { agendas := [{ title := some "X" }] })]
        [("B", { agendas := [{ title := some "X" }] })]).2
      = (appendToArchive nowSept2025 [("B", { agendas := [{ title := some "X" }] })]
          [("B", { agendas := [{ title := some "X" }] })]).2)
    ∧ (appendToArchive nowMarch2025 [("B", { agendas := [{ title := some "X" }] })]
        [("B", { agendas := [{ title := some "X" }] })]).1
      = (appendToArchive nowSept2025 [("B", { agendas := [{ title := some "X" }] })]
          [("B", { agendas := [{ title := some "X" }] })]).1 :=
  ⟨(merge_pure_function nowMarch2025 nowSept2025
      [("B", { agendas := [{ title := some "X" }] })]
      [("B", { agendas := [{ title := some "X" }] })]).1,
   (merge_pure_function nowMarch2025 nowSept2025
      [("B", { agendas := [{ title := some "X" }] })]
      [("B", { agendas := [{ title := some "X" }] })]).2 (by decide)⟩

theorem matchFalse_of_fresh {c e : Doc} (h : FreshAgainst c e) :
    (titleDateMatch c e || urlMatch c e) = false := by
  obtain ⟨htd, hurl⟩ := h
  rw [htd]
  rcases hurl with h1 | h1
  · simp [urlMatch, h1]
  · simp [urlMatch, bne_iff_ne, h1]

theorem freshAgainstNew_prepare (now : Now) {c c' : Doc} (h : FreshAgainstNew c c') :
    FreshAgainst c (prepareDocumentForArchive now c') := by
  obtain ⟨htd, hurl⟩ := h
  constructor
  · rw [titleDateMatch_prepare, htd]
  · rw [prepare_url_getD]
    exact hurl

theorem not_dup_of_fresh {c : Doc} {ex : List Doc}
    (h : ∀ e ∈ ex, FreshAgainst c e) :
    isDuplicateDocument c ex = false := by
  simp only [isDuplicateDocument, List.any_eq_false]
  intro e he
  simp [matchFalse_of_fresh (h e he)]

theorem freshBatchList_append_left {xs ys ex : List Doc}
    (h : FreshBatchList (xs ++ ys) ex) : FreshBatchList xs ex := by
  obtain ⟨hall, hpw⟩ := h
  exact ⟨fun c hc e he => hall c (List.mem_append_left ys hc) e he,
    (List.pairwise_append.1 hpw).1⟩

theorem freshBatchList_append_right (now : Now) {xs ys ex : List Doc}
    (h : FreshBatchList (xs ++ ys) ex) :
    FreshBatchList ys (ex ++ xs.map (prepareDocumentForArchive now)) := by
  obtain ⟨hall, hpw⟩ := h
  obtain ⟨hxs, hys, hcross⟩ := List.pairwise_append.1 hpw
  refine ⟨?_, hys⟩
  intro c hc e he
  rcases List.mem_append.1 he with he' | he'
  · exact hall c (List.mem_append_right xs hc) e he'
  · obtain ⟨x, hx, rfl⟩ := List.mem_map.1 he'
    exact freshAgainstNew_prepare now (hcross x hx c hc)

theorem processDocs_fresh (now : Now) (cs : List Doc) : ∀ (ex : List Doc),
    FreshBatchList cs ex →
    processDocs now cs ex = (ex ++ cs.map (prepareDocumentForArchive now), cs.length) := by
  induction cs with
  | nil => intro ex _; simp [processDocs]
  | cons c cs ih =>
    intro ex h
    obtain ⟨hall, hpw⟩ := h
    have hdup : isDuplicateDocument c ex = false :=
      not_dup_of_fresh (hall c (by simp))
    simp only [processDocs, hdup, Bool.false_eq_true, if_false]
    obtain ⟨hhead, htail⟩ := List.pairwise_cons.1 hpw
    have hfresh2 : FreshBatchList cs (ex ++ [prepareDocumentForArchive now c]) := by
      constructor
      · intro c2 hc2 e he
        rcases List.mem_append.1 he with he' | he'
        · exact hall c2 (by simp [hc2]) e he'
        · rw [List.mem_singleton.1 he']
          exact freshAgainstNew_prepare now (hhead c2 hc2)
      · exact htail
    rw [ih _ hfresh2]
    simp


theorem batchAgendas_cons (n : String) (bd : Body) (rest : List (String × Body))
    (x : String) :
    batchAgendas ((n, bd) :: rest) x
      = if (n == x) then bd.agendas ++ batchAgendas rest x else batchAgendas rest x := by
  simp only [batchAgendas, List.filter]
  cases hn : (n == x) with
  | true => simp
  | false => simp

theorem batchMinutes_cons (n : String) (bd : Body) (rest : List (String × Body))
    (x : String) :
    batchMinutes ((n, bd) :: rest) x
      = if (n == x) then bd.minutes ++ batchMinutes rest x else batchMinutes rest x := by
  simp only [batchMinutes, List.filter]
  cases hn : (n == x) with
  | true => simp
  | false => simp

theorem archAgendas_extend (A : Archive) (n x : String) :
    archAgendas (if (lookupBody A n).isSome then A else A ++ [(n, ({} : Body))]) x
      = archAgendas A x := by
  cases h : lookupBody A n with
  | some b => simp [h]
  | none =>
    simp only [h, Option.isSome_none, Bool.false_eq_true, if_false]
    unfold archAgendas
    rw [lookupBody_append, lookupBody_singleton]
    cases hx : lookupBody A x with
    | some b2 => simp
    | none =>
      cases hnx : (n == x) <;> simp

theorem archMinutes_extend (A : Archive) (n x : String) :
    archMinutes (if (lookupBody A n).isSome then A else A ++ [(n, ({} : Body))]) x
      = archMinutes A x := by
  cases h : lookupBody A n with
  | some b => simp [h]
  | none =>
    simp only [h, Option.isSome_none, Bool.false_eq_true, if_false]
    unfold archMinutes
    rw [lookupBody_append, lookupBody_singleton]
    cases hx : lookupBody A x with
    | some b2 => simp
    | none =>
      cases hnx : (n == x) <;> simp

theorem archAgendas_update_self (A : Archive) (n : String) (b : Body)
    (h : (lookupBody A n).isSome) :
    archAgendas (updateBody A n b) n = b.agendas := by
  unfold archAgendas
  rw [lookupBody_updateBody_self A n b h]
  rfl

theorem archMinutes_update_self (A : Archive) (n : String) (b : Body)
    (h : (lookupBody A n).isSome) :
    archMinutes (updateBody A n b) n = b.minutes := by
  unfold archMinutes
  rw [lookupBody_updateBody_self A n b h]
  rfl

theorem archAgendas_update_ne (A : Archive) (n x : String) (b : Body) (hx : x ≠ n) :
    archAgendas (updateBody A n b) x = archAgendas A x := by
  unfold archAgendas
  rw [lookupBody_updateBody_ne A n x b hx]

theorem archMinutes_update_ne (A : Archive) (n x : String) (b : Body) (hx : x ≠ n) :
    archMinutes (updateBody A n b) x = archMinutes A x := by
  unfold archMinutes
  rw [lookupBody_updateBody_ne A n x b hx]


theorem appendToArchive_fresh (now : Now) (B : List (String × Body)) :
    ∀ (A : Archive),
    (∀ x, FreshBatchList (batchAgendas B x) (archAgendas A x)
        ∧ FreshBatchList (batchMinutes B x) (archMinutes A x)) →
    (∀ x, archAgendas (appendToArchive now B A).1 x
        = archAgendas A x ++ (batchAgendas B x).map (prepareDocumentForArchive now)
      ∧ archMinutes (appendToArchive now B A).1 x
        = archMinutes A x ++ (batchMinutes B x).map (prepareDocumentForArchive now))
    ∧ (appendToArchive now B A).2.1 = batchSize B := by
  induction B with
  | nil =>
    intro A _
    refine ⟨fun x => ⟨?_, ?_⟩, rfl⟩ <;>
      simp [batchAgendas, batchMinutes, appendToArchive]
  | cons q rest ih =>
    intro A h
    obtain ⟨n, bd⟩ := q
    simp only [appendToArchive]
    set a1 := if (lookupBody A n).isSome then A else A ++ [(n, ({} : Body))] with ha1
    set ab := (lookupBody a1 n).getD ({} : Body) with hab
    set r := processBody now bd ab with hrdef
    have hsome : (lookupBody a1 n).isSome := by
      rw [ha1]; exact lookupBody_extend_isSome A n
    have hag_a1 : ∀ x, archAgendas a1 x = archAgendas A x := by
      intro x; rw [ha1]; exact archAgendas_extend A n x
    have hmin_a1 : ∀ x, archMinutes a1 x = archMinutes A x := by
      intro x; rw [ha1]; exact archMinutes_extend A n x
    have hab_ag : ab.agendas = archAgendas A n := by
      rw [← hag_a1 n]; rfl
    have hab_min : ab.minutes = archMinutes A n := by
      rw [← hmin_a1 n]; rfl
    have hbn := (h n).1
    rw [batchAgendas_cons, beq_self_eq_true, if_pos rfl] at hbn
    have hbn_min := (h n).2
    rw [batchMinutes_cons, beq_self_eq_true, if_pos rfl] at hbn_min
    have hfresh_ag : FreshBatchList bd.agendas ab.agendas := by
      rw [hab_ag]; exact freshBatchList_append_left hbn
    have hfresh_min : FreshBatchList bd.minutes ab.minutes := by
      rw [hab_min]; exact freshBatchList_append_left hbn_min
    have hproc_ag := processDocs_fresh now bd.agendas ab.agendas hfresh_ag
    have hproc_min := processDocs_fresh now bd.minutes ab.minutes hfresh_min
    have hr1ag : r.1.agendas
        = ab.agendas ++ bd.agendas.map (prepareDocumentForArchive now) := by
      rw [hrdef]
      show (processDocs now bd.agendas ab.agendas).1 = _
      rw [hproc_ag]
    have hr1min : r.1.minutes
        = ab.minutes ++ bd.minutes.map (prepareDocumentForArchive now) := by
      rw [hrdef]
      show (processDocs now bd.minutes ab.minutes).1 = _
      rw [hproc_min]
    have hr2 : r.2 = bd.agendas.length + bd.minutes.length := by
      rw [hrdef]
      show (processDocs now bd.agendas ab.agendas).2
        + (processDocs now bd.minutes ab.minutes).2 = _
      rw [hproc_ag, hproc_min]
    have ha2_ag : ∀ x, archAgendas (updateBody a1 n r.1) x
        = if x = n then archAgendas A n ++ bd.agendas.map (prepareDocumentForArchive now)
          else archAgendas A x := by
      intro x
      by_cases hx : x = n
      · subst hx
        rw [if_pos rfl, archAgendas_update_self a1 x r.1 hsome, hr1ag, hab_ag]
      · rw [if_neg hx, archAgendas_update_ne a1 n x r.1 hx, hag_a1]
    have ha2_min : ∀ x, archMinutes (updateBody a1 n r.1) x
        = if x = n then archMinutes A n ++ bd.minutes.map (prepareDocumentForArchive now)
          else archMinutes A x := by
      intro x
      by_cases hx : x = n
      · subst hx
        rw [if_pos rfl, archMinutes_update_self a1 x r.1 hsome, hr1min, hab_min]
      · rw [if_neg hx, archMinutes_update_ne a1 n x r.1 hx, hmin_a1]
    have hrest : ∀ x, FreshBatchList (batchAgendas rest x)
          (archAgendas (updateBody a1 n r.1) x)
        ∧ FreshBatchList (batchMinutes rest x)
          (archMinutes (updateBody a1 n r.1) x) := by
      intro x
      constructor
      · rw [ha2_ag x]
        by_cases hx : x = n
        · subst hx
          rw [if_pos rfl]
          exact freshBatchList_append_right now hbn
        · rw [if_neg hx]
          have hx2 := (h x).1
          have hnx : (n == x) = false := by
            simp [beq_eq_false_iff_ne, Ne.symm hx]
          rw [batchAgendas_cons, hnx, if_neg (by simp)] at hx2
          exact hx2
      · rw [ha2_min x]
        by_cases hx : x = n
        · subst hx
          rw [if_pos rfl]
          exact freshBatchList_append_right now hbn_min
        · rw [if_neg hx]
          have hx2 := (h x).2
          have hnx : (n == x) = false := by
            simp [beq_eq_false_iff_ne, Ne.symm hx]
          rw [batchMinutes_cons, hnx, if_neg (by simp)] at hx2
          exact hx2
    obtain ⟨ihb, ihc⟩ := ih (updateBody a1 n r.1) hrest
    constructor
    · intro x
      constructor
      · show archAgendas (appendToArchive now rest (updateBody a1 n r.1)).1 x = _
        rw [(ihb x).1, ha2_ag x, batchAgendas_cons]
        by_cases hx : x = n
        · subst hx
          rw [if_pos rfl, beq_self_eq_true, if_pos rfl]
          simp [List.map_append, List.append_assoc]
        · have hnx : (n == x) = false := by
            simp [beq_eq_false_iff_ne, Ne.symm hx]
          rw [if_neg hx, hnx, if_neg (by simp)]
      · show archMinutes (appendToArchive now rest (updateBody a1 n r.1)).1 x = _
        rw [(ihb x).2, ha2_min x, batchMinutes_cons]
        by_cases hx : x = n
        · subst hx
          rw [if_pos rfl, beq_self_eq_true, if_pos rfl]
          simp [List.map_append, List.append_assoc]
        · have hnx : (n == x) = false := by
            simp [beq_eq_false_iff_ne, Ne.symm hx]
          rw [if_neg hx, hnx, if_neg (by simp)]
    · show r.2 + (appendToArchive now rest (updateBody a1 n r.1)).2.1
          = batchSize ((n, bd) :: rest)
      rw [hr2, ihc]
      simp [batchSize]


theorem processDocs_length (now : Now) (cs : List Doc) : ∀ (ex : List Doc),
    (processDocs now cs ex).1.length = ex.length + (processDocs now cs ex).2 := by
  induction cs with
  | nil => intro ex; simp [processDocs]
  | cons c cs ih =>
    intro ex
    simp only [processDocs]
    cases hd : isDuplicateDocument c ex with
    | true =>
      rw [if_pos rfl]
      exact ih ex
    | false =>
      rw [if_neg (by simp)]
      have := ih (ex ++ [prepareDocumentForArchive now c])
      simp only [List.length_append, List.length_cons, List.length_nil] at this
      simp only []
      omega

theorem docCount_updateBody (A : Archive) (n : String) (b b0 : Body)
    (h : lookupBody A n = some b0) :
    docCount (updateBody A n b) + (b0.agendas.length + b0.minutes.length)
      = docCount A + (b.agendas.length + b.minutes.length) := by
  induction A with
  | nil => simp [lookupBody] at h
  | cons p rest ih =>
    obtain ⟨m, bm⟩ := p
    by_cases hm : (m == n)
    · simp only [lookupBody, List.find?, hm] at h
      simp at h
      subst h
      simp only [updateBody, hm, if_true]
      simp [docCount]
      omega
    · simp only [lookupBody, List.find?, hm, Bool.false_eq_true, if_false] at h
      simp only [updateBody, hm, Bool.false_eq_true, if_false]
      have := ih h
      simp only [docCount, List.map_cons, List.sum_cons] at this ⊢
      omega

theorem docCount_append_single (A : Archive) (n : String) (b : Body) :
    docCount (A ++ [(n, b)]) = docCount A + (b.agendas.length + b.minutes.length) := by
  simp [docCount]

theorem docCount_appendToArchive (now : Now) (B : List (String × Body)) :
    ∀ (A : Archive),
    docCount (appendToArchive now B A).1 = docCount A + (appendToArchive now B A).2.1 := by
  induction B with
  | nil => intro A; simp [appendToArchive]
  | cons q rest ih =>
    intro A
    obtain ⟨n, bd⟩ := q
    simp only [appendToArchive]
    set a1 := if (lookupBody A n).isSome then A else A ++ [(n, ({} : Body))] with ha1
    set ab := (lookupBody a1 n).getD ({} : Body) with hab
    set r := processBody now bd ab with hrdef
    have hc1 : docCount a1 = docCount A := by
      rw [ha1]
      cases hn : lookupBody A n with
      | some b => simp [hn]
      | none =>
        simp only [hn, Option.isSome_none, Bool.false_eq_true, if_false]
        rw [docCount_append_single]
        rfl
    have hsome : (lookupBody a1 n).isSome := by
      rw [ha1]; exact lookupBody_extend_isSome A n
    obtain ⟨b, hb⟩ := Option.isSome_iff_exists.1 hsome
    have habb : ab = b := by rw [hab, hb]; rfl
    have hsz : r.1.agendas.length + r.1.minutes.length
        = (ab.agendas.length + ab.minutes.length) + r.2 := by
      have h1 : r.1.agendas.length
          = ab.agendas.length + (processDocs now bd.agendas ab.agendas).2 :=
        processDocs_length now bd.agendas ab.agendas
      have h2 : r.1.minutes.length
          = ab.minutes.length + (processDocs now bd.minutes ab.minutes).2 :=
        processDocs_length now bd.minutes ab.minutes
      have h3 : r.2 = (processDocs now bd.agendas ab.agendas).2
          + (processDocs now bd.minutes ab.minutes).2 := rfl
      omega
    have hupd := docCount_updateBody a1 n r.1 b hb
    have hc2 : docCount (updateBody a1 n r.1) = docCount A + r.2 := by
      rw [habb] at hsz
      omega
    show docCount (appendToArchive now rest (updateBody a1 n r.1)).1
      = docCount A + (r.2 + (appendToArchive now rest (updateBody a1 n r.1)).2.1)
    rw [ih (updateBody a1 n r.1), hc2]
    omega

/-- C5 counterexample: two batches whose records have pairwise-distinct
(body, type, title, date) keys can still collide on a shared non-empty URL -
the second record is skipped as a duplicate, so the merged document count is 1,
not count(archive) + count(B1) + count(B2) = 2. -/
theorem additivity_url_collision :
    (docCount (appendToArchive nowSept2025
        [("B", { agendas := [{ title := some "Y", date := some "D2", url := some "u" }] })]
        (appendToArchive nowMarch2025
          [("B", { agendas := [{ title := some "X", date := some "D1", url := some "u" }] })]
          []).1).1 = 1)
    ∧ batchSize [("B", { agendas := [{ title := some "X", date := some "D1", url := some "u" }] })] = 1
    ∧ batchSize [("B", { agendas := [{ title := some "Y", date := some "D2", url := some "u" }] })] = 1
    ∧ docCount ([] : Archive) = 0
    ∧ (("B", "agendas", "X", "D1") : String × String × String × String)
        ≠ ("B", "agendas", "Y", "D2")
    ∧ (1 : Nat) ≠ 0 + 1 + 1 := by
  exact ⟨by decide, by decide, by decide, by decide, by decide, by decide⟩

/-- C5 amended: merge is additive over genuinely fresh batches - whenever, per
body and collection, the concatenated candidates of B1 and B2 pairwise fail the
trimmed-title+date test and cannot URL-match the archive's records or the
archived (URL-backfilled) copies of earlier candidates, the total document
count after the two merges is count(archive) + count(B1) + count(B2). -/
theorem merge_additive_disjoint (now1 now2 : Now) (B1 B2 : List (String × Body))
    (A : Archive)
    (h : ∀ x, FreshBatchList (batchAgendas B1 x ++ batchAgendas B2 x) (archAgendas A x)
        ∧ FreshBatchList (batchMinutes B1 x ++ batchMinutes B2 x) (archMinutes A x)) :
    docCount (appendToArchive now2 B2 (appendToArchive now1 B1 A).1).1
      = docCount A + batchSize B1 + batchSize B2 := by
  have h1 : ∀ x, FreshBatchList (batchAgendas B1 x) (archAgendas A x)
      ∧ FreshBatchList (batchMinutes B1 x) (archMinutes A x) :=
    fun x => ⟨freshBatchList_append_left (h x).1, freshBatchList_append_left (h x).2⟩
  obtain ⟨hbuck, hcnt1⟩ := appendToArchive_fresh now1 B1 A h1
  have h2 : ∀ x, FreshBatchList (batchAgendas B2 x)
        (archAgendas (appendToArchive now1 B1 A).1 x)
      ∧ FreshBatchList (batchMinutes B2 x)
        (archMinutes (appendToArchive now1 B1 A).1 x) := by
    intro x
    constructor
    · rw [(hbuck x).1]
      exact freshBatchList_append_right now1 (h x).1
    · rw [(hbuck x).2]
      exact freshBatchList_append_right now1 (h x).2
  have hcnt2 := (appendToArchive_fresh now2 B2 _ h2).2
  rw [docCount_appendToArchive, hcnt2, docCount_appendToArchive, hcnt1]

theorem merge_additive_disjoint_witness :
    docCount (appendToArchive nowSept2025
        [("B", { agendas := [{ title := some "Y", date := some "2025-02-02" }] })]
        (appendToArchive nowMarch2025
          [("B", { agendas := [{ title := some "X", date := some "2025-01-01" }] })]
          []).1).1
      = docCount ([] : Archive)
        + batchSize [("B", { agendas := [{ title := some "X", date := some "2025-01-01" }] })]
        + batchSize [("B", { agendas := [{ title := some "Y", date := some "2025-02-02" }] })] := by
  apply merge_additive_disjoint
  intro x
  by_cases hx : x = "B"
  · subst hx
    constructor
    · show FreshBatchList
        (batchAgendas [("B", { agendas := [{ title := some "X", date := some "2025-01-01" }] })] "B"
          ++ batchAgendas [("B", { agendas := [{ title := some "Y", date := some "2025-02-02" }] })] "B")
        (archAgendas [] "B")
      refine ⟨?_, ?_⟩
      · decide
      · decide
    · refine ⟨?_, ?_⟩
      · decide
      · decide
  · have hnx : (("B" : String) == x) = false := by
      simp [beq_eq_false_iff_ne, Ne.symm hx]
    constructor
    · rw [batchAgendas_cons, hnx, if_neg (by simp), batchAgendas_cons, hnx,
        if_neg (by simp)]
      exact ⟨fun c hc => absurd hc (by simp [batchAgendas]), by simp [batchAgendas]⟩
    · rw [batchMinutes_cons, hnx, if_neg (by simp), batchMinutes_cons, hnx,
        if_neg (by simp)]
      exact ⟨fun c hc => absurd hc (by simp [batchMinutes]), by simp [batchMinutes]⟩

theorem strLt_le_step {x y z : String} (h1 : strLt x y = true) (h2 : strLe y z = true) :
    strLe x z = true := by
  unfold strLe at h2 ⊢
  cases hzx : strLt z x with
  | false => simp
  | true =>
    have := strLt_trans hzx h1
    simp [this] at h2

theorem mem_insertStrAsc {x y : String} : ∀ {l : List String},
    y ∈ insertStrAsc x l ↔ y = x ∨ y ∈ l := by
  intro l
  induction l with
  | nil => simp [insertStrAsc]
  | cons e es ih =>
    simp only [insertStrAsc]
    split
    · simp only [List.mem_cons]
    · simp only [List.mem_cons, ih]
      tauto

theorem insertStrAsc_perm (x : String) (l : List String) :
    (insertStrAsc x l).Perm (x :: l) := by
  induction l with
  | nil => exact List.Perm.refl _
  | cons e es ih =>
    simp only [insertStrAsc]
    split
    · exact List.Perm.refl _
    · exact (ih.cons e).trans (List.Perm.swap x e es)

theorem insertStrAsc_pairwise {x : String} {l : List String}
    (h : l.Pairwise (fun a b => strLe a b = true)) :
    (insertStrAsc x l).Pairwise (fun a b => strLe a b = true) := by
  induction l with
  | nil => simp [insertStrAsc]
  | cons e es ih =>
    rcases List.pairwise_cons.1 h with ⟨he, hes⟩
    simp only [insertStrAsc]
    split
    · rename_i hlt
      refine List.pairwise_cons.2 ⟨?_, h⟩
      intro z hz
      rcases List.mem_cons.1 hz with rfl | hz'
      · exact strLe_of_lt hlt
      · exact strLt_le_step hlt (he z hz')
    · rename_i hnlt
      refine List.pairwise_cons.2 ⟨?_, ih hes⟩
      intro z hz
      rcases mem_insertStrAsc.1 hz with rfl | hz'
      · unfold strLe
        simp only [Bool.not_eq_true] at hnlt
        simp [hnlt]
      · exact he z hz'

theorem sortStrings_perm (l : List String) : (sortStrings l).Perm l := by
  induction l with
  | nil => exact List.Perm.refl _
  | cons x xs ih => exact (insertStrAsc_perm x _).trans (ih.cons x)

theorem sortStrings_pairwise (l : List String) :
    (sortStrings l).Pairwise (fun a b => strLe a b = true) := by
  induction l with
  | nil => simp [sortStrings]
  | cons x xs ih => exact insertStrAsc_pairwise ih

theorem insertSet_mem {x y : String} {l : List String} :
    y ∈ insertSet x l ↔ y = x ∨ y ∈ l := by
  unfold insertSet
  split
  · rename_i hx
    constructor
    · exact Or.inr
    · rintro (rfl | hy)
      · exact hx
      · exact hy
  · simp [List.mem_append]
    tauto

theorem insertSet_nodup {x : String} {l : List String} (h : l.Nodup) :
    (insertSet x l).Nodup := by
  unfold insertSet
  split
  · exact h
  · rename_i hx
    simp [List.nodup_append, h, hx]


theorem foldl_addDocStats_totals (docs : List Doc) : ∀ (acc : StatsAcc),
    (docs.foldl addDocStats acc).total_documents = acc.total_documents
    ∧ (docs.foldl addDocStats acc).total_agendas = acc.total_agendas
    ∧ (docs.foldl addDocStats acc).total_minutes = acc.total_minutes := by
  induction docs with
  | nil => intro acc; exact ⟨rfl, rfl, rfl⟩
  | cons d ds ih =>
    intro acc
    exact ih (addDocStats acc d)

theorem addDocStats_months_mem (acc : StatsAcc) (d : Doc) (m : String) :
    m ∈ (addDocStats acc d).months ↔ d.month = some m ∨ m ∈ acc.months := by
  unfold addDocStats
  cases hd : d.month with
  | none => simp
  | some mm =>
    simp only [insertSet_mem, Option.some_inj]
    constructor
    · rintro (rfl | hm)
      · exact Or.inl rfl
      · exact Or.inr hm
    · rintro (rfl | hm)
      · exact Or.inl rfl
      · exact Or.inr hm

theorem addDocStats_years_mem (acc : StatsAcc) (d : Doc) (y : String) :
    y ∈ (addDocStats acc d).years
      ↔ (∃ n, d.year = some n ∧ y = toString n) ∨ y ∈ acc.years := by
  unfold addDocStats
  cases hd : d.year with
  | none => simp
  | some n =>
    simp only [insertSet_mem, Option.some_inj]
    constructor
    · rintro (rfl | hy)
      · exact Or.inl ⟨n, rfl, rfl⟩
      · exact Or.inr hy
    · rintro (⟨n2, hn2, rfl⟩ | hy)
      · rw [hn2]
        exact Or.inl rfl
      · exact Or.inr hy

theorem foldl_addDocStats_months (docs : List Doc) : ∀ (acc : StatsAcc) (m : String),
    m ∈ (docs.foldl addDocStats acc).months
      ↔ (∃ d ∈ docs, d.month = some m) ∨ m ∈ acc.months := by
  induction docs with
  | nil => intro acc m; simp
  | cons d ds ih =>
    intro acc m
    rw [List.foldl_cons, ih, addDocStats_months_mem]
    constructor
    · rintro (⟨d2, hd2, hm2⟩ | (hm | hm))
      · exact Or.inl ⟨d2, by simp [hd2], hm2⟩
      · exact Or.inl ⟨d, by simp, hm⟩
      · exact Or.inr hm
    · rintro (⟨d2, hd2, hm2⟩ | hm)
      · rcases List.mem_cons.1 hd2 with rfl | hd2'
        · exact Or.inr (Or.inl hm2)
        · exact Or.inl ⟨d2, hd2', hm2⟩
      · exact Or.inr (Or.inr hm)

theorem foldl_addDocStats_years (docs : List Doc) : ∀ (acc : StatsAcc) (y : String),
    y ∈ (docs.foldl addDocStats acc).years
      ↔ (∃ d ∈ docs, ∃ n, d.year = some n ∧ y = toString n) ∨ y ∈ acc.years := by
  induction docs with
  | nil => intro acc y; simp
  | cons d ds ih =>
    intro acc y
    rw [List.foldl_cons, ih, addDocStats_years_mem]
    constructor
    · rintro (⟨d2, hd2, hy2⟩ | (hy | hy))
      · exact Or.inl ⟨d2, by simp [hd2], hy2⟩
      · exact Or.inl ⟨d, by simp, hy⟩
      · exact Or.inr hy
    · rintro (⟨d2, hd2, hy2⟩ | hy)
      · rcases List.mem_cons.1 hd2 with rfl | hd2'
        · exact Or.inr (Or.inl hy2)
        · exact Or.inl ⟨d2, hd2', hy2⟩
      · exact Or.inr (Or.inr hy)

theorem foldl_addDocStats_nodup (docs : List Doc) : ∀ (acc : StatsAcc),
    acc.months.Nodup → acc.years.Nodup →
    (docs.foldl addDocStats acc).months.Nodup
    ∧ (docs.foldl addDocStats acc).years.Nodup := by
  induction docs with
  | nil => intro acc h1 h2; exact ⟨h1, h2⟩
  | cons d ds ih =>
    intro acc h1 h2
    refine ih (addDocStats acc d) ?_ ?_
    · unfold addDocStats
      cases d.month with
      | none => exact h1
      | some mm => exact insertSet_nodup h1
    · unfold addDocStats
      cases d.year with
      | none => exact h2
      | some n => exact insertSet_nodup h2

theorem addBodyStats_totals (acc : StatsAcc) (b : Body) :
    (addBodyStats acc b).total_documents
      = acc.total_documents + b.agendas.length + b.minutes.length
    ∧ (addBodyStats acc b).total_agendas = acc.total_agendas + b.agendas.length
    ∧ (addBodyStats acc b).total_minutes = acc.total_minutes + b.minutes.length := by
  unfold addBodyStats
  obtain ⟨hd1, ha1, hm1⟩ := foldl_addDocStats_totals b.minutes _
  obtain ⟨hd2, ha2, hm2⟩ := foldl_addDocStats_totals b.agendas _
  refine ⟨?_, ?_, ?_⟩
  · rw [hd1]
    simp only []
    rw [hd2]
  · rw [ha1]
    simp only []
    rw [ha2]
  · rw [hm1]
    simp only []
    rw [hm2]

theorem addBodyStats_months (acc : StatsAcc) (b : Body) (m : String) :
    m ∈ (addBodyStats acc b).months
      ↔ (∃ d ∈ b.agendas ++ b.minutes, d.month = some m) ∨ m ∈ acc.months := by
  unfold addBodyStats
  rw [foldl_addDocStats_months]
  show _ ∨ m ∈ (b.agendas.foldl addDocStats _).months ↔ _
  rw [foldl_addDocStats_months]
  constructor
  · rintro (⟨d, hd, hm⟩ | (⟨d, hd, hm⟩ | hm))
    · exact Or.inl ⟨d, List.mem_append_right _ hd, hm⟩
    · exact Or.inl ⟨d, List.mem_append_left _ hd, hm⟩
    · exact Or.inr hm
  · rintro (⟨d, hd, hm⟩ | hm)
    · rcases List.mem_append.1 hd with hd' | hd'
      · exact Or.inr (Or.inl ⟨d, hd', hm⟩)
      · exact Or.inl ⟨d, hd', hm⟩
    · exact Or.inr (Or.inr hm)

theorem addBodyStats_years (acc : StatsAcc) (b : Body) (y : String) :
    y ∈ (addBodyStats acc b).years
      ↔ (∃ d ∈ b.agendas ++ b.minutes, ∃ n, d.year = some n ∧ y = toString n)
        ∨ y ∈ acc.years := by
  unfold addBodyStats
  rw [foldl_addDocStats_years]
  show _ ∨ y ∈ (b.agendas.foldl addDocStats _).years ↔ _
  rw [foldl_addDocStats_years]
  constructor
  · rintro (⟨d, hd, hy⟩ | (⟨d, hd, hy⟩ | hy))
    · exact Or.inl ⟨d, List.mem_append_right _ hd, hy⟩
    · exact Or.inl ⟨d, List.mem_append_left _ hd, hy⟩
    · exact Or.inr hy
  · rintro (⟨d, hd, hy⟩ | hy)
    · rcases List.mem_append.1 hd with hd' | hd'
      · exact Or.inr (Or.inl ⟨d, hd', hy⟩)
      · exact Or.inl ⟨d, hd', hy⟩
    · exact Or.inr (Or.inr hy)

theorem addBodyStats_nodup (acc : StatsAcc) (b : Body)
    (h1 : acc.months.Nodup) (h2 : acc.years.Nodup) :
    (addBodyStats acc b).months.Nodup ∧ (addBodyStats acc b).years.Nodup := by
  unfold addBodyStats
  have := foldl_addDocStats_nodup b.agendas
    { acc with
      total_agendas := acc.total_agendas + b.agendas.length,
      total_documents := acc.total_documents + b.agendas.length } h1 h2
  exact foldl_addDocStats_nodup b.minutes _ this.1 this.2


theorem archive_foldl_totals (a : Archive) : ∀ (acc : StatsAcc),
    (a.foldl (fun acc p => addBodyStats acc p.2) acc).total_agendas
      = acc.total_agendas + (a.map (fun p => p.2.agendas.length)).sum
    ∧ (a.foldl (fun acc p => addBodyStats acc p.2) acc).total_minutes
      = acc.total_minutes + (a.map (fun p => p.2.minutes.length)).sum
    ∧ (a.foldl (fun acc p => addBodyStats acc p.2) acc).total_documents
      = acc.total_documents
        + (a.map (fun p => p.2.agendas.length + p.2.minutes.length)).sum := by
  induction a with
  | nil => intro acc; simp
  | cons p rest ih =>
    intro acc
    rw [List.foldl_cons]
    obtain ⟨h1, h2, h3⟩ := ih (addBodyStats acc p.2)
    obtain ⟨g1, g2, g3⟩ := addBodyStats_totals acc p.2
    refine ⟨?_, ?_, ?_⟩ <;> simp only [h1, h2, h3, g1, g2, g3, List.map_cons,
      List.sum_cons] <;> omega

theorem archive_foldl_months (a : Archive) : ∀ (acc : StatsAcc) (m : String),
    m ∈ (a.foldl (fun acc p => addBodyStats acc p.2) acc).months
      ↔ (∃ p ∈ a, ∃ d ∈ p.2.agendas ++ p.2.minutes, d.month = some m)
        ∨ m ∈ acc.months := by
  induction a with
  | nil => intro acc m; simp
  | cons p rest ih =>
    intro acc m
    rw [List.foldl_cons, ih, addBodyStats_months]
    constructor
    · rintro (⟨q, hq, hd⟩ | (⟨d, hd, hm⟩ | hm))
      · exact Or.inl ⟨q, by simp [hq], hd⟩
      · exact Or.inl ⟨p, by simp, d, hd, hm⟩
      · exact Or.inr hm
    · rintro (⟨q, hq, hd⟩ | hm)
      · rcases List.mem_cons.1 hq with rfl | hq'
        · exact Or.inr (Or.inl hd)
        · exact Or.inl ⟨q, hq', hd⟩
      · exact Or.inr (Or.inr hm)

theorem archive_foldl_years (a : Archive) : ∀ (acc : StatsAcc) (y : String),
    y ∈ (a.foldl (fun acc p => addBodyStats acc p.2) acc).years
      ↔ (∃ p ∈ a, ∃ d ∈ p.2.agendas ++ p.2.minutes, ∃ n, d.year = some n ∧ y = toString n)
        ∨ y ∈ acc.years := by
  induction a with
  | nil => intro acc y; simp
  | cons p rest ih =>
    intro acc y
    rw [List.foldl_cons, ih, addBodyStats_years]
    constructor
    · rintro (⟨q, hq, hd⟩ | (⟨d, hd, hy⟩ | hy))
      · exact Or.inl ⟨q, by simp [hq], hd⟩
      · exact Or.inl ⟨p, by simp, d, hd, hy⟩
      · exact Or.inr hy
    · rintro (⟨q, hq, hd⟩ | hy)
      · rcases List.mem_cons.1 hq with rfl | hq'
        · exact Or.inr (Or.inl hd)
        · exact Or.inl ⟨q, hq', hd⟩
      · exact Or.inr (Or.inr hy)

theorem archive_foldl_nodup (a : Archive) : ∀ (acc : StatsAcc),
    acc.months.Nodup → acc.years.Nodup →
    (a.foldl (fun acc p => addBodyStats acc p.2) acc).months.Nodup
    ∧ (a.foldl (fun acc p => addBodyStats acc p.2) acc).years.Nodup := by
  induction a with
  | nil => intro acc h1 h2; exact ⟨h1, h2⟩
  | cons p rest ih =>
    intro acc h1 h2
    rw [List.foldl_cons]
    obtain ⟨g1, g2⟩ := addBodyStats_nodup acc p.2 h1 h2
    exact ih (addBodyStats acc p.2) g1 g2

theorem sum_map_add_lengths (a : Archive) :
    (a.map (fun p => p.2.agendas.length + p.2.minutes.length)).sum
      = (a.map (fun p => p.2.agendas.length)).sum
        + (a.map (fun p => p.2.minutes.length)).sum := by
  induction a with
  | nil => rfl
  | cons p rest ih =>
    simp only [List.map_cons, List.sum_cons, ih]
    omega

/-- C10: the Statistics Aggregator's output is internally consistent -
total_documents is total_agendas plus total_minutes, the agenda and minutes
totals are the summed collection lengths over all bodies,
total_government_bodies is the length of the government_bodies list (the
archive's body names in order), and months_covered / years_covered are
duplicate-free lexicographically sorted lists of exactly the month and
stringified year values occurring in the archive's records. -/
theorem archive_stats_consistent (now : Now) (a : Archive) :
    (calculateArchiveStats now a).total_documents
      = (calculateArchiveStats now a).total_agendas
        + (calculateArchiveStats now a).total_minutes
    ∧ (calculateArchiveStats now a).total_agendas
      = (a.map (fun p => p.2.agendas.length)).sum
    ∧ (calculateArchiveStats now a).total_minutes
      = (a.map (fun p => p.2.minutes.length)).sum
    ∧ (calculateArchiveStats now a).total_government_bodies
      = (calculateArchiveStats now a).government_bodies.length
    ∧ (calculateArchiveStats now a).government_bodies = a.map Prod.fst
    ∧ (calculateArchiveStats now a).months_covered.Nodup
    ∧ (calculateArchiveStats now a).months_covered.Pairwise
        (fun x y => strLe x y = true)
    ∧ (∀ m, m ∈ (calculateArchiveStats now a).months_covered
        ↔ ∃ p ∈ a, ∃ d ∈ p.2.agendas ++ p.2.minutes, d.month = some m)
    ∧ (calculateArchiveStats now a).years_covered.Nodup
    ∧ (calculateArchiveStats now a).years_covered.Pairwise
        (fun x y => strLe x y = true)
    ∧ (∀ y, y ∈ (calculateArchiveStats now a).years_covered
        ↔ ∃ p ∈ a, ∃ d ∈ p.2.agendas ++ p.2.minutes,
            ∃ n, d.year = some n ∧ y = toString n) := by
  obtain ⟨t1, t2, t3⟩ := archive_foldl_totals a {}
  obtain ⟨n1, n2⟩ := archive_foldl_nodup a {} (by simp) (by simp)
  simp only [StatsAcc.total_agendas, StatsAcc.total_minutes, StatsAcc.total_documents] at t1 t2 t3
  refine ⟨?_, ?_, ?_, ?_, rfl, ?_, ?_, ?_, ?_, ?_, ?_⟩
  · show (a.foldl (fun acc p => addBodyStats acc p.2) {}).total_documents
      = (a.foldl (fun acc p => addBodyStats acc p.2) {}).total_agendas
        + (a.foldl (fun acc p => addBodyStats acc p.2) {}).total_minutes
    rw [t1, t2, t3, sum_map_add_lengths]
    simp
  · show (a.foldl (fun acc p => addBodyStats acc p.2) {}).total_agendas = _
    rw [t1]
    simp
  · show (a.foldl (fun acc p => addBodyStats acc p.2) {}).total_minutes = _
    rw [t2]
    simp
  · show a.length = (a.map Prod.fst).length
    rw [List.length_map]
  · show (sortStrings (a.foldl (fun acc p => addBodyStats acc p.2) {}).months).Nodup
    exact ((sortStrings_perm _).nodup_iff).2 n1
  · exact sortStrings_pairwise _
  · intro m
    show m ∈ sortStrings (a.foldl (fun acc p => addBodyStats acc p.2) {}).months ↔ _
    rw [(sortStrings_perm _).mem_iff, archive_foldl_months]
    simp
  · show (sortStrings (a.foldl (fun acc p => addBodyStats acc p.2) {}).years).Nodup
    exact ((sortStrings_perm _).nodup_iff).2 n2
  · exact sortStrings_pairwise _
  · intro y
    show y ∈ sortStrings (a.foldl (fun acc p => addBodyStats acc p.2) {}).years ↔ _
    rw [(sortStrings_perm _).mem_iff, archive_foldl_years]
    simp

end LCF
